import Mathlib

/-!
Verification of the ibis SQL query-builder core
(`ibis/backends/base/sql/compiler/query_builder.py`) against its
natural-language specification.

The expression IR is embedded as the inductive type `E` below, mirroring the
operator kinds the query builder inspects (`ibis.expr.operations`): physical
tables, self references, selections, aggregations, joins, limits, distinct,
set operations, columns, literals, comparisons, existence predicates, and the
top-K marker.  Stateful builder code is embedded as explicit state passing;
fallible code returns `Except`.
-/

/-- Join variants, mirroring the keys of `TableSetFormatter._join_names`. -/
inductive JoinType where
  | inner
  | leftOuter
  | rightOuter
  | fullOuter
  | leftAnti
  | leftSemi
  | cross
  deriving DecidableEq, Repr

mutual

/-- The expression IR node kinds relevant to the query-builder core,
mirroring the `ibis.expr.operations` node classes that
`query_builder.py` dispatches on.  Each constructor's fields are the
node's child expression arguments plus its non-expression payload.
(List- and option-valued child slots use the mutually defined `EList`
and `EOpt` so that structural equality — the source's node equality used
by memo sets and caches — is derivable.) -/
inductive E where
  | physicalTable (name : String)
  | selfReference (table : E)
  | selection (table : E) (selections : EList) (predicates : EList)
      (sortKeys : EList)
  | aggregation (table : E) (byKeys : EList) (metrics : EList)
      (having : EList) (predicates : EList) (sortKeys : EList)
  | join (jtype : JoinType) (left : E) (right : E) (predicates : EList)
  | materializedJoin (joined : E)
  | limitOp (table : E) (n : Nat) (offset : Nat)
  | distinctOp (table : E)
  | unionOp (left : E) (right : E) (distinct : Bool)
  | intersectionOp (left : E) (right : E)
  | differenceOp (left : E) (right : E)
  | tableColumn (cname : String) (table : E) (isBoolCol : Bool)
  | literal (v : Int)
  | equalsOp (left : E) (right : E)
  | andOp (left : E) (right : E)
  | anyOp (arg : E)
  | notAnyOp (arg : E)
  | existsSubquery (foreignTable : EOpt) (predicates : EList)
  | notExistsSubquery (foreignTable : EOpt) (predicates : EList)
  | tableArrayView (table : E)
  | topK (arg : E) (k : Nat) (metric : E)
  | summaryFilter (topk : E)
  deriving DecidableEq, Repr

/-- A list of expression nodes (a mutual companion of `E`). -/
inductive EList where
  | nil
  | cons (head : E) (tail : EList)
  deriving DecidableEq, Repr

/-- An optional expression node (a mutual companion of `E`). -/
inductive EOpt where
  | none
  | some (e : E)
  deriving DecidableEq, Repr

end

/-- The plain list held by an `EList`. -/
def EList.toList : EList → List E
  | EList.nil => []
  | EList.cons h t => h :: t.toList

/-- Wrap a plain list as an `EList`. -/
def EList.ofList : List E → EList
  | [] => EList.nil
  | h :: t => EList.cons h (EList.ofList t)

/-- The plain option held by an `EOpt`. -/
def EOpt.toList : EOpt → List E
  | EOpt.none => []
  | EOpt.some e => [e]

namespace IbisQB

open E

/-- Membership of a node in a list of nodes (structural equality, the
source's node identity/equality used by memo sets and caches). -/
def memE (e : E) (l : List E) : Bool := l.contains e

/-- `Node.flat_args()`: the direct child expression arguments of a node,
with list-valued arguments flattened into the sequence (non-expression
payload such as names, counts and flags is skipped, as in the source). -/
def flatArgs : E → List E
  | physicalTable _ => []
  | selfReference t => [t]
  | selection t sels preds keys =>
      t :: (sels.toList ++ preds.toList ++ keys.toList)
  | aggregation t b m h p k =>
      t :: (b.toList ++ m.toList ++ h.toList ++ p.toList ++ k.toList)
  | join _ l r p => l :: r :: p.toList
  | materializedJoin j => [j]
  | limitOp t _ _ => [t]
  | distinctOp t => [t]
  | unionOp l r _ => [l, r]
  | intersectionOp l r => [l, r]
  | differenceOp l r => [l, r]
  | tableColumn _ t _ => [t]
  | literal _ => []
  | equalsOp l r => [l, r]
  | andOp l r => [l, r]
  | anyOp a => [a]
  | notAnyOp a => [a]
  | existsSubquery f p => f.toList ++ p.toList
  | notExistsSubquery f p => f.toList ++ p.toList
  | tableArrayView t => [t]
  | topK a _ m => [a, m]
  | summaryFilter t => [t]

/-- `isinstance(arg, ir.TableExpr)`: whether a node is a table expression. -/
def isTableExpr : E → Bool
  | physicalTable _ | selfReference _ | selection .. | aggregation ..
  | join .. | materializedJoin _ | limitOp .. | distinctOp _
  | unionOp .. | intersectionOp .. | differenceOp .. => true
  | _ => false

/-- `isinstance(arg, ir.BooleanColumn)`: whether a node is a boolean-typed
column expression.  Comparisons, conjunctions, existence subqueries and
boolean table columns fall in this class; the typing is modelled minimally
for the node kinds embedded here. -/
def isBooleanColumn : E → Bool
  | tableColumn _ _ b => b
  | equalsOp .. | andOp .. | existsSubquery .. | notExistsSubquery .. => true
  | _ => false

/-- Whether a node is an `ops.Join`. -/
def isJoin : E → Bool
  | join .. => true
  | _ => false

/-- `node.blocks()`.  Modelled from the spec: `ops.TableNode.blocks` is not
under src; the spec's glossary defines a blocking node as "a physical table,
join, aggregation, or selection".  `Join` is excluded here because the source
always tests it separately (`node.blocks() or isinstance(node, ops.Join)`);
a `SelfReference` is a blocking root of its own. -/
def blocks : E → Bool
  | physicalTable _ | selection .. | aggregation .. | selfReference _ => true
  | _ => false

/-- `TableExpr._root_tables()`.  Modelled from the spec: the root-table
computation is not under src; per §4.3 and the glossary, the roots of a
table set are its transitive blocking table references, recursing through
joins and through non-blocking wrappers such as `Limit` and `Distinct`. -/
def rootTables : E → List E
  | join _ l r _ => rootTables l ++ rootTables r
  | materializedJoin j => rootTables j
  | limitOp t _ _ => rootTables t
  | distinctOp t => rootTables t
  | unionOp l r _ => rootTables l ++ rootTables r
  | intersectionOp l r => rootTables l ++ rootTables r
  | differenceOp l r => rootTables l ++ rootTables r
  | physicalTable n => [physicalTable n]
  | selfReference t => [selfReference t]
  | selection t s p k => [selection t s p k]
  | aggregation t b m h p k => [aggregation t b m h p k]
  | _ => []

/-! ### Set-operation flattening (`flatten_union`, `flatten_intersection`,
`flatten_difference`) and the set-operation statements (`Union`,
`Intersection`, `Difference`, `QueryBuilder._make_union`). -/

/-- Whether a node is an `ops.Union`. -/
def isUnionNode : E → Bool
  | unionOp .. => true
  | _ => false

/-- `flatten_union`: recursively splits a `Union` chain into the
interleaved sequence of table operands (`Sum.inl`) and per-pair distinct
flags (`Sum.inr`); any non-`Union` node is a single operand. -/
def flattenUnion : E → List (Sum E Bool)
  | unionOp l r d => flattenUnion l ++ (Sum.inr d :: flattenUnion r)
  | t => [Sum.inl t]

/-- `flatten_intersection`: splits only a top-level `Intersection`, and
recurses into each arm with `flatten_union` (exactly as the source does),
so a nested `Intersection` is NOT split further. -/
def flattenIntersection : E → List (Sum E Bool)
  | intersectionOp l r => flattenUnion l ++ flattenUnion r
  | t => [Sum.inl t]

/-- `flatten_difference`: splits only a top-level `Difference`, and
recurses into each arm with `flatten_union` (exactly as the source does),
so a nested `Difference` is NOT split further. -/
def flattenDifference : E → List (Sum E Bool)
  | differenceOp l r => flattenUnion l ++ flattenUnion r
  | t => [Sum.inl t]

/-- `Union.keyword`. -/
def unionKeyword (distinct : Bool) : String :=
  if distinct then "UNION" else "UNION ALL"

/-- `Union.keyword` as applied by `_get_keyword_list` to the stored
`distincts` elements.  A (mis-shaped) table operand landing in the
`distincts` slots is a truthy Python object, hence rendered `UNION`. -/
def unionKeywordOf : Sum E Bool → String
  | Sum.inr d => unionKeyword d
  | Sum.inl _ => "UNION"

/-- `Union._get_keyword_list`. -/
def unionKeywordList (distincts : List (Sum E Bool)) : List String :=
  distincts.map unionKeywordOf

/-- `Intersection._get_keyword_list`:
`["INTERSECT" for _ in range(len(self.tables) - 1)]`. -/
def intersectionKeywordList (tables : List (Sum E Bool)) : List String :=
  (List.range (tables.length - 1)).map (fun _ => "INTERSECT")

/-- `Difference._get_keyword_list`: `["EXCEPT"] * (len(self.tables) - 1)`. -/
def differenceKeywordList (tables : List (Sum E Bool)) : List String :=
  List.replicate (tables.length - 1) "EXCEPT"

mutual

/-- `union_info[::2]`: every other element starting from index 0. -/
def everyOtherFrom0 : List α → List α
  | [] => []
  | a :: rest => a :: everyOtherFrom1 rest

/-- `union_info[1::2]`: every other element starting from index 1. -/
def everyOtherFrom1 : List α → List α
  | [] => []
  | _ :: rest => everyOtherFrom0 rest

end

/-- The `Union` set-operation statement's stored operands and flags. -/
structure UnionParts where
  tables : List (Sum E Bool)
  distincts : List (Sum E Bool)
  deriving Repr

/-- `QueryBuilder._make_union`: flatten the union chain, validate the
element count (at least 3 and odd, else the `assert` fires), then slice
the tables (even positions) and distinct flags (odd positions). -/
def makeUnion (expr : E) : Except String UnionParts :=
  let unionInfo := flattenUnion expr
  let npieces := unionInfo.length
  if 3 ≤ npieces ∧ npieces % 2 ≠ 0 then
    Except.ok ⟨everyOtherFrom0 unionInfo, everyOtherFrom1 unionInfo⟩
  else
    Except.error "Invalid union expression"

/-- `QueryBuilder._make_intersect`: the statement's table operands. -/
def makeIntersect (expr : E) : List (Sum E Bool) :=
  flattenIntersection expr

/-- `QueryBuilder._make_difference`: the statement's table operands. -/
def makeDifference (expr : E) : List (Sum E Bool) :=
  flattenDifference expr

/-- A right-recursive union chain: `t₀ UNION[d₁] (t₁ UNION[d₂] (…))`. -/
def rightUnionChain : E → List (Bool × E) → E
  | t, [] => t
  | t, (d, u) :: rest => unionOp t (rightUnionChain u rest) d

/-- The interleaving of flags and tables expected from flattening the
tail of a right-recursive union chain. -/
def interleavePieces : List (Bool × E) → List (Sum E Bool)
  | [] => []
  | (d, t) :: rest => Sum.inr d :: Sum.inl t :: interleavePieces rest

theorem flattenUnion_of_not_union {t : E} (h : isUnionNode t = false) :
    flattenUnion t = [Sum.inl t] := by
  cases t <;> first
    | rfl
    | simp [isUnionNode] at h

theorem flattenUnion_rightUnionChain (l : List (Bool × E)) :
    ∀ t₀ : E, isUnionNode t₀ = false →
      (∀ p ∈ l, isUnionNode p.2 = false) →
      flattenUnion (rightUnionChain t₀ l) =
        Sum.inl t₀ :: interleavePieces l := by
  induction l with
  | nil =>
      intro t₀ h₀ _
      simp [rightUnionChain, interleavePieces, flattenUnion_of_not_union h₀]
  | cons p rest ih =>
      intro t₀ h₀ h
      obtain ⟨d, u⟩ := p
      have hu : isUnionNode u = false := h (d, u) (by simp)
      have hrest : ∀ q ∈ rest, isUnionNode q.2 = false :=
        fun q hq => h q (by simp [hq])
      simp [rightUnionChain, flattenUnion, interleavePieces,
        flattenUnion_of_not_union h₀, ih u hu hrest]

theorem interleavePieces_length (l : List (Bool × E)) :
    (interleavePieces l).length = 2 * l.length := by
  induction l with
  | nil => rfl
  | cons p rest ih =>
      obtain ⟨d, t⟩ := p
      simp [interleavePieces, ih]
      omega

theorem everyOtherFrom1_interleave (l : List (Bool × E)) :
    everyOtherFrom1 (interleavePieces l) =
      l.map (fun p => Sum.inl p.2) := by
  induction l with
  | nil => rfl
  | cons p rest ih =>
      obtain ⟨d, t⟩ := p
      simp [interleavePieces, everyOtherFrom1, everyOtherFrom0, ih]

theorem everyOtherFrom0_interleave (l : List (Bool × E)) :
    everyOtherFrom0 (interleavePieces l) =
      l.map (fun p => Sum.inr p.1) := by
  induction l with
  | nil => rfl
  | cons p rest ih =>
      obtain ⟨d, t⟩ := p
      simp [interleavePieces, everyOtherFrom1, everyOtherFrom0, ih]

/-- C4: flattening a right-recursive chain of N unions over non-union
operands with flags d₁..d₍N₋₁₎ yields the N table operands interleaved
with the N−1 flags (an odd total element count of 2(N−1)+1, which the
builder's validation accepts), and the union statement's keyword list has
one keyword per adjacent operand pair: `UNION` if the corresponding flag
is true, else `UNION ALL`. -/
theorem c4_union_flatten_keywords (t₀ : E) (l : List (Bool × E))
    (h₀ : isUnionNode t₀ = false)
    (h : ∀ p ∈ l, isUnionNode p.2 = false) (hne : l ≠ []) :
    flattenUnion (rightUnionChain t₀ l) =
        Sum.inl t₀ :: interleavePieces l ∧
    (flattenUnion (rightUnionChain t₀ l)).length = 2 * l.length + 1 ∧
    makeUnion (rightUnionChain t₀ l) =
      Except.ok ⟨Sum.inl t₀ :: l.map (fun p => Sum.inl p.2),
                 l.map (fun p => Sum.inr p.1)⟩ ∧
    unionKeywordList (l.map (fun p => Sum.inr p.1)) =
      l.map (fun p => if p.1 then "UNION" else "UNION ALL") := by
  have hflat := flattenUnion_rightUnionChain l t₀ h₀ h
  have hlen : (flattenUnion (rightUnionChain t₀ l)).length = 2 * l.length + 1 := by
    rw [hflat]
    simp [interleavePieces_length]
  refine ⟨hflat, hlen, ?_, ?_⟩
  · have hl1 : 1 ≤ l.length := by
      cases l with
      | nil => exact absurd rfl hne
      | cons a as => simp
    unfold makeUnion
    rw [hflat]
    have hcond : 3 ≤ (Sum.inl t₀ :: interleavePieces l).length ∧
        (Sum.inl t₀ :: interleavePieces l).length % 2 ≠ 0 := by
      constructor
      · simp [interleavePieces_length]
        omega
      · simp [interleavePieces_length]
        omega
    rw [if_pos hcond]
    simp [everyOtherFrom0, everyOtherFrom1,
      everyOtherFrom0_interleave, everyOtherFrom1_interleave]
  · simp [unionKeywordList, unionKeywordOf, unionKeyword]

/-- Witness for C4 at the concrete chain
`a UNION (b UNION ALL c)` (flags `[true, false]`). -/
theorem c4_union_flatten_keywords_witness :
    makeUnion (rightUnionChain (physicalTable "a")
        [(true, physicalTable "b"), (false, physicalTable "c")]) =
      Except.ok ⟨[Sum.inl (physicalTable "a"), Sum.inl (physicalTable "b"),
                  Sum.inl (physicalTable "c")],
                 [Sum.inr true, Sum.inr false]⟩ ∧
    unionKeywordList [Sum.inr true, Sum.inr false] = ["UNION", "UNION ALL"] :=
  ⟨((c4_union_flatten_keywords (physicalTable "a")
        [(true, physicalTable "b"), (false, physicalTable "c")]
        rfl (by simp [isUnionNode]) (by simp)).2.2).1,
   ((c4_union_flatten_keywords (physicalTable "a")
        [(true, physicalTable "b"), (false, physicalTable "c")]
        rfl (by simp [isUnionNode]) (by simp)).2.2).2⟩

/-- C5 (code bug): `flatten_intersection` and `flatten_difference` recurse
into their arms with `flatten_union`, so a nested `Intersection`
(resp. `Difference`) chain is NOT flattened into all its table operands:
on `(a INTERSECT b) INTERSECT c` the code produces the two operands
`[a INTERSECT b, c]` with a single `INTERSECT` keyword, not the three
operands with two keywords that deep flattening would give (likewise for
`EXCEPT`). -/
theorem c5_intersection_difference_shallow :
    makeIntersect (intersectionOp
        (intersectionOp (physicalTable "a") (physicalTable "b"))
        (physicalTable "c")) =
      [Sum.inl (intersectionOp (physicalTable "a") (physicalTable "b")),
       Sum.inl (physicalTable "c")] ∧
    intersectionKeywordList (makeIntersect (intersectionOp
        (intersectionOp (physicalTable "a") (physicalTable "b"))
        (physicalTable "c"))) = ["INTERSECT"] ∧
    makeIntersect (intersectionOp
        (intersectionOp (physicalTable "a") (physicalTable "b"))
        (physicalTable "c")) ≠
      [Sum.inl (physicalTable "a"), Sum.inl (physicalTable "b"),
       Sum.inl (physicalTable "c")] ∧
    makeDifference (differenceOp
        (differenceOp (physicalTable "a") (physicalTable "b"))
        (physicalTable "c")) =
      [Sum.inl (differenceOp (physicalTable "a") (physicalTable "b")),
       Sum.inl (physicalTable "c")] ∧
    differenceKeywordList (makeDifference (differenceOp
        (differenceOp (physicalTable "a") (physicalTable "b"))
        (physicalTable "c"))) = ["EXCEPT"] ∧
    makeDifference (differenceOp
        (differenceOp (physicalTable "a") (physicalTable "b"))
        (physicalTable "c")) ≠
      [Sum.inl (physicalTable "a"), Sum.inl (physicalTable "b"),
       Sum.inl (physicalTable "c")] := by
  refine ⟨rfl, rfl, ?_, rfl, rfl, ?_⟩ <;> simp [makeIntersect, makeDifference,
    flattenIntersection, flattenDifference, flattenUnion]

/-! ### Query Context.

Modelled from the spec (§3, §4.1): the `QueryContext` class itself is not
under src (only its call sites are).  It owns an alias registry
(node → alias string, minted `t0, t1, …`), an extraction set, an
always-alias flag, and an optional parent context searched by some
lookups. -/

/-- Modelled from the spec: the Query Context state (§3, §4.1). -/
inductive Ctx where
  | mk (aliases : List (E × String)) (counter : Nat) (extracted : List E)
      (alwaysAlias : Bool) (parent : Option Ctx)

namespace Ctx

def aliases : Ctx → List (E × String)
  | mk a _ _ _ _ => a

def counter : Ctx → Nat
  | mk _ c _ _ _ => c

def extractedList : Ctx → List E
  | mk _ _ x _ _ => x

def alwaysAliasFlag : Ctx → Bool
  | mk _ _ _ f _ => f

def parent : Ctx → Option Ctx
  | mk _ _ _ _ p => p

/-- Modelled from the spec: `has_ref(node)` without parent search — true
iff an alias is already registered for the node. -/
def hasRefLocal (c : Ctx) (e : E) : Bool :=
  c.aliases.any (fun pr => pr.1 == e)

/-- Modelled from the spec: `has_ref(node, parent_contexts=True)` — the
alias lookup searching the parent chain as well. -/
def hasRefChain : Ctx → E → Bool
  | mk a _ _ _ p, e =>
      a.any (fun pr => pr.1 == e) ||
        (match p with
         | some q => hasRefChain q e
         | none => false)

/-- Modelled from the spec: `is_extracted(node)` — whether the node has
been promoted to a WITH entry, possibly by an enclosing compilation
(hence the parent-chain search; see the source comment at issue 173). -/
def isExtracted : Ctx → E → Bool
  | mk _ _ x _ p, e =>
      memE e x ||
        (match p with
         | some q => isExtracted q e
         | none => false)

/-- Modelled from the spec: `mark_extracted(node)` / `set_extracted`. -/
def setExtracted : Ctx → E → Ctx
  | mk a c x f p, e => mk a c (x ++ [e]) f p

/-- Modelled from the spec: `make_alias(node)` mints the next alias
(`t0, t1, …`) and records it. -/
def makeAlias : Ctx → E → Ctx
  | mk a c x f p, e => mk (a ++ [(e, "t" ++ toString c)]) (c + 1) x f p

/-- Modelled from the spec: `set_ref(node, alias)`. -/
def setRef : Ctx → E → String → Ctx
  | mk a c x f p, e, s => mk (a ++ [(e, s)]) c x f p

/-- Modelled from the spec: `get_ref(node)` — the registered alias, or the
empty string when none is registered. -/
def getRefD (c : Ctx) (e : E) : String :=
  match c.aliases.find? (fun pr => pr.1 == e) with
  | some pr => pr.2
  | none => ""

/-- Modelled from the spec: `set_always_alias()`. -/
def setAlwaysAlias : Ctx → Ctx
  | mk a c x _ p => mk a c x true p

/-- Modelled from the spec: `needs_alias(node)` — true when more than one
distinct table reference is registered for the statement or the
always-alias flag is set. -/
def needAliases (c : Ctx) (_e : E) : Bool :=
  c.alwaysAliasFlag || c.aliases.length > 1

/-- Modelled from the spec: `top_context` — the topmost ancestor. -/
def topContext : Ctx → Ctx
  | mk a c x f none => mk a c x f none
  | mk _ _ _ _ (some p) => topContext p

end Ctx

/-- A fresh per-compilation context. -/
def freshCtx : Ctx := Ctx.mk [] 0 [] false none

/-! ### Table-Set Formatter (`TableSetFormatter`). -/

/-- `quote_identifier` (from the registry, an external interface per the
spec §6).  Modelled from the spec as the identity; identifier quoting does
not affect the join-shape and counting properties verified here. -/
def quoteIdentifier (name : String) : String := name

/-- `util.indent(text, k)`: prefix every line with `k` spaces. -/
def indentStr (s : String) (k : Nat) : String :=
  String.intercalate "\n"
    ((s.splitOn "\n").map (fun line => String.mk (List.replicate k ' ') ++ line))

/-- `TableSetFormatter._join_names`, the fixed keyword table. -/
def joinName : JoinType → String
  | JoinType.inner => "INNER JOIN"
  | JoinType.leftOuter => "LEFT OUTER JOIN"
  | JoinType.rightOuter => "RIGHT OUTER JOIN"
  | JoinType.fullOuter => "FULL OUTER JOIN"
  | JoinType.leftAnti => "LEFT ANTI JOIN"
  | JoinType.leftSemi => "LEFT SEMI JOIN"
  | JoinType.cross => "CROSS JOIN"

/-- Whether a node is an `ops.Equals`. -/
def isEqualsNode : E → Bool
  | equalsOp .. => true
  | _ => false

/-- `TableSetFormatter._non_equijoin_supported` (a placeholder flag, set
true in the source). -/
def nonEquijoinSupported : Bool := true

/-- `TableSetFormatter._validate_join_predicates`: raise on the first
non-equality predicate when the dialect forbids non-equijoins. -/
def validateJoinPredicates (preds : List E) : Except String Unit :=
  match preds.find? (fun p => !isEqualsNode p && !nonEquijoinSupported) with
  | some _ =>
      Except.error
        "Non-equality join predicates, i.e. non-equijoins, are not supported"
  | none => Except.ok ()

/-- The formatter's external collaborators: the Query Context, the memoized
compiled text of a subquery (`ctx.get_compiled_expr`), and the per-operator
dialect translator (`self._translate`), both external interfaces per §6. -/
structure FmtEnv where
  ctx : Ctx
  compiledText : E → String
  translatePred : E → String

/-- `TableSetFormatter._format_table`: a physical table renders as its
quoted name; an extracted subquery renders as its alias (with the
referenced table's alias prefixed for a self-reference); an un-extracted
subquery renders parenthesized and indented with a trailing alias; an
alias suffix is appended when the context reports `need_aliases`.  (Table
names are always present in this embedding; the source raises
`RelationError` for a nameless physical table.) -/
def formatTable (env : FmtEnv) (expr : E) : String :=
  let ctx := env.ctx
  let refExpr : E :=
    match expr with
    | selfReference t => t
    | _ => expr
  match refExpr with
  | physicalTable name =>
      let result := quoteIdentifier name
      if ctx.needAliases expr then result ++ " " ++ ctx.getRefD expr
      else result
  | _ =>
      if ctx.isExtracted refExpr then
        let aliasStr := ctx.getRefD expr
        match expr with
        | selfReference _ => ctx.getRefD refExpr ++ " " ++ aliasStr
        | _ => aliasStr
      else
        let subquery := env.compiledText expr
        let result := "(\n" ++ indentStr subquery 2 ++ "\n)"
        result ++ " " ++ ctx.getRefD expr

/-- The formatter's accumulated join tables, join keywords and per-join
predicate lists (`self.join_tables`, `self.join_types`,
`self.join_predicates`). -/
structure WalkResult where
  joinTables : List String
  joinTypes : List String
  joinPreds : List (List E)
  deriving Repr

/-- `TableSetFormatter._walk_join_tree`: reject a join of two joins and a
join appearing as the right operand; recurse on a join appearing as the
left operand; linearize tables, join keywords and predicate lists
left-to-right. -/
def walkJoinTree (env : FmtEnv) : E → WalkResult → Except String WalkResult
  | join jt l r preds, acc =>
      if isJoin l && isJoin r then
        Except.error "Do not support joins between joins yet"
      else
        match validateJoinPredicates preds.toList with
        | Except.error m => Except.error m
        | Except.ok _ =>
            let jname := joinName jt
            if isJoin l then
              match walkJoinTree env l acc with
              | Except.error m => Except.error m
              | Except.ok acc2 =>
                  Except.ok
                    { joinTables := acc2.joinTables ++ [formatTable env r]
                      joinTypes := acc2.joinTypes ++ [jname]
                      joinPreds := acc2.joinPreds ++ [preds.toList] }
            else if isJoin r then
              Except.error "not allowing joins on right side yet"
            else
              Except.ok
                { joinTables :=
                    acc.joinTables ++ [formatTable env l, formatTable env r]
                  joinTypes := acc.joinTypes ++ [jname]
                  joinPreds := acc.joinPreds ++ [preds.toList] }
  | _, _ => Except.error "walk_join_tree called on a non-join"

/-- One formatted join predicate in `get_result`: wrapped in parentheses
exactly when the join carries more than one predicate. -/
def renderJoinPred (translate : E → String) (npreds : Nat) (p : E) : String :=
  if npreds > 1 then "(" ++ translate p ++ ")" else translate p

/-- `zip` of the three accumulated lists, as in `get_result`'s loop. -/
def zip3 : List α → List β → List γ → List (α × β × γ)
  | a :: as, b :: bs, c :: cs => (a, b, c) :: zip3 as bs cs
  | _, _, _ => []

/-- One join's rendered fragment in `get_result`. -/
def renderOneJoin (translate : E → String)
    (entry : String × String × List E) : String :=
  let (jtype, table, preds) := entry
  let fmtPreds := preds.map (renderJoinPred translate preds.length)
  "\n" ++ indentStr (jtype ++ " " ++ table) 2 ++
    (if fmtPreds.length ≠ 0 then
      "\n" ++
        indentStr ("ON " ++ String.intercalate (" AND\n" ++ "   ") fmtPreds) 4
    else "")

/-- `TableSetFormatter.get_result`: walk the join tree (or format the one
table), then render the first table followed by one fragment per
(keyword, table, predicate-list) triple. -/
def tableSetFormatterResult (env : FmtEnv) (expr : E) :
    Except String String := do
  let acc ←
    if isJoin expr then walkJoinTree env expr ⟨[], [], []⟩
    else Except.ok ⟨[formatTable env expr], [], []⟩
  let entries := zip3 acc.joinTypes (acc.joinTables.drop 1) acc.joinPreds
  Except.ok
    ((acc.joinTables.headD "") ++
      String.join (entries.map (renderOneJoin env.translatePred)))

/-- The number of joined tables in a join tree (the leaves of the tree of
`Join` nodes). -/
def leafCount : E → Nat
  | join _ l r _ => leafCount l + leafCount r
  | _ => 1

/-- A join tree in the only shape `_walk_join_tree` accepts: along the
left spine, no right operand is itself a join. -/
def leftSpineOk : E → Bool
  | join _ l r _ => !isJoin r && leftSpineOk l
  | _ => true

theorem validateJoinPredicates_ok (preds : List E) :
    validateJoinPredicates preds = Except.ok () := by
  unfold validateJoinPredicates
  have h : preds.find? (fun p => !isEqualsNode p && !nonEquijoinSupported)
      = none := by
    simp [List.find?_eq_none, nonEquijoinSupported]
  rw [h]

theorem leafCount_of_nonjoin {e : E} (h : isJoin e = false) :
    leafCount e = 1 := by
  cases e <;> first
    | rfl
    | simp [isJoin] at h

theorem walkJoinTree_leftSpine (n : Nat) : ∀ t : E, sizeOf t ≤ n →
    isJoin t = true → leftSpineOk t = true →
    ∀ (env : FmtEnv) (acc : WalkResult),
      ∃ res, walkJoinTree env t acc = Except.ok res ∧
        res.joinTables.length = acc.joinTables.length + leafCount t ∧
        res.joinTypes.length + 1 = acc.joinTypes.length + leafCount t ∧
        res.joinPreds.length + 1 = acc.joinPreds.length + leafCount t ∧
        (∀ ty ∈ res.joinTypes,
          ty ∈ acc.joinTypes ∨ ∃ jt, ty = joinName jt) := by
  induction n with
  | zero =>
      intro t ht hj _hsp _env _acc
      cases t <;> simp [isJoin] at hj
      simp at ht
  | succ n ih =>
      intro t ht hj hsp env acc
      cases t with
      | join jt l r preds =>
          simp only [leftSpineOk, Bool.and_eq_true, Bool.not_eq_true'] at hsp
          obtain ⟨hr, hl⟩ := hsp
          by_cases hjl : isJoin l = true
          · have hszl : sizeOf l ≤ n := by
              simp at ht
              omega
            obtain ⟨mid, hmid, h1, h2, h3, h4⟩ := ih l hszl hjl hl env acc
            refine ⟨⟨mid.joinTables ++ [formatTable env r],
                     mid.joinTypes ++ [joinName jt],
                     mid.joinPreds ++ [preds.toList]⟩, ?_, ?_, ?_, ?_, ?_⟩
            · simp [walkJoinTree, hjl, hr, validateJoinPredicates_ok, hmid]
            · simp only [List.length_append, List.length_cons,
                List.length_nil, leafCount, leafCount_of_nonjoin hr, h1]
              omega
            · simp only [List.length_append, List.length_cons,
                List.length_nil, leafCount, leafCount_of_nonjoin hr]
              omega
            · simp only [List.length_append, List.length_cons,
                List.length_nil, leafCount, leafCount_of_nonjoin hr]
              omega
            · intro ty hty
              simp only [List.mem_append, List.mem_singleton] at hty
              rcases hty with hty | hty
              · exact h4 ty hty
              · exact Or.inr ⟨jt, hty⟩
          · have hjl' : isJoin l = false := by
              simpa using hjl
            refine ⟨⟨acc.joinTables ++ [formatTable env l, formatTable env r],
                     acc.joinTypes ++ [joinName jt],
                     acc.joinPreds ++ [preds.toList]⟩, ?_, ?_, ?_, ?_, ?_⟩
            · simp [walkJoinTree, hjl', hr, validateJoinPredicates_ok]
            · simp only [List.length_append, List.length_cons,
                List.length_nil, leafCount, leafCount_of_nonjoin hr,
                leafCount_of_nonjoin hjl']
            · simp only [List.length_append, List.length_cons,
                List.length_nil, leafCount, leafCount_of_nonjoin hr,
                leafCount_of_nonjoin hjl']
            · simp only [List.length_append, List.length_cons,
                List.length_nil, leafCount, leafCount_of_nonjoin hr,
                leafCount_of_nonjoin hjl']
            · intro ty hty
              simp only [List.mem_append, List.mem_singleton] at hty
              rcases hty with hty | hty
              · exact Or.inl hty
              · exact Or.inr ⟨jt, hty⟩
      | physicalTable name => simp [isJoin] at hj
      | selfReference a => simp [isJoin] at hj
      | selection a b c d => simp [isJoin] at hj
      | aggregation a b c d e f => simp [isJoin] at hj
      | materializedJoin a => simp [isJoin] at hj
      | limitOp a b c => simp [isJoin] at hj
      | distinctOp a => simp [isJoin] at hj
      | unionOp a b c => simp [isJoin] at hj
      | intersectionOp a b => simp [isJoin] at hj
      | differenceOp a b => simp [isJoin] at hj
      | tableColumn a b c => simp [isJoin] at hj
      | literal a => simp [isJoin] at hj
      | equalsOp a b => simp [isJoin] at hj
      | andOp a b => simp [isJoin] at hj
      | anyOp a => simp [isJoin] at hj
      | notAnyOp a => simp [isJoin] at hj
      | existsSubquery a b => simp [isJoin] at hj
      | notExistsSubquery a b => simp [isJoin] at hj
      | tableArrayView a => simp [isJoin] at hj
      | topK a b c => simp [isJoin] at hj
      | summaryFilter a => simp [isJoin] at hj

/-- C8: a join appearing as the right operand of another join (in
particular a join of two joins) makes `_walk_join_tree` signal an
unsupported-shape error immediately and produce no output, while a join
tree whose nesting is confined to left operands is walked successfully. -/
theorem c8_join_shape (env : FmtEnv) (jt : JoinType) (l r : E)
    (preds : EList) (acc : WalkResult) :
    (isJoin r = true →
      ∃ msg, walkJoinTree env (join jt l r preds) acc = Except.error msg) ∧
    (leftSpineOk (join jt l r preds) = true →
      ∃ res, walkJoinTree env (join jt l r preds) acc = Except.ok res) := by
  constructor
  · intro hr
    by_cases hjl : isJoin l = true
    · exact ⟨"Do not support joins between joins yet",
        by simp [walkJoinTree, hjl, hr]⟩
    · have hjl' : isJoin l = false := by simpa using hjl
      exact ⟨"not allowing joins on right side yet",
        by simp [walkJoinTree, hjl', hr, validateJoinPredicates_ok]⟩
  · intro hsp
    obtain ⟨res, hres, _⟩ :=
      walkJoinTree_leftSpine (sizeOf (join jt l r preds))
        (join jt l r preds) (Nat.le_refl _) rfl hsp env acc
    exact ⟨res, hres⟩

/-- Witness for C8: with join predicates and fresh context, the tree
`a INNER JOIN (b INNER JOIN c)` errors, while
`(a INNER JOIN b) INNER JOIN c` is walked successfully. -/
theorem c8_join_shape_witness :
    (∃ msg,
      walkJoinTree ⟨freshCtx, fun _ => "", fun _ => ""⟩
        (join JoinType.inner (physicalTable "a")
          (join JoinType.inner (physicalTable "b") (physicalTable "c")
            EList.nil)
          EList.nil) ⟨[], [], []⟩ = Except.error msg) ∧
    (∃ res,
      walkJoinTree ⟨freshCtx, fun _ => "", fun _ => ""⟩
        (join JoinType.inner
          (join JoinType.inner (physicalTable "a") (physicalTable "b")
            EList.nil)
          (physicalTable "c") EList.nil) ⟨[], [], []⟩ = Except.ok res) :=
  ⟨(c8_join_shape ⟨freshCtx, fun _ => "", fun _ => ""⟩ JoinType.inner
      (physicalTable "a")
      (join JoinType.inner (physicalTable "b") (physicalTable "c") EList.nil)
      EList.nil ⟨[], [], []⟩).1 rfl,
   (c8_join_shape ⟨freshCtx, fun _ => "", fun _ => ""⟩ JoinType.inner
      (join JoinType.inner (physicalTable "a") (physicalTable "b") EList.nil)
      (physicalTable "c") EList.nil ⟨[], [], []⟩).2 rfl⟩

theorem zip3_length_eq (a : List α) : ∀ (b : List β) (c : List γ),
    a.length = b.length → b.length = c.length →
    (zip3 a b c).length = a.length := by
  induction a with
  | nil => intro b c _ _; simp [zip3]
  | cons x xs ih =>
      intro b c hab hbc
      cases b with
      | nil => simp at hab
      | cons y ys =>
          cases c with
          | nil => simp at hbc
          | cons z zs =>
              simp only [zip3, List.length_cons]
              rw [ih ys zs (by simpa using hab) (by simpa using hbc)]

theorem paren_length (s : String) : ("(" ++ s ++ ")").length = s.length + 2 := by
  have h1 : "(".length = 1 := rfl
  have h2 : ")".length = 1 := rfl
  simp [String.length_append, h1, h2]
  omega

theorem renderJoinPred_paren_iff (translate : E → String) (npreds : Nat)
    (p : E) :
    (renderJoinPred translate npreds p = "(" ++ translate p ++ ")") ↔
      1 < npreds := by
  unfold renderJoinPred
  by_cases h : npreds > 1
  · simp [h]
  · rw [if_neg h]
    refine iff_of_false ?_ h
    intro hEq
    have hlen := congrArg String.length hEq
    rw [paren_length] at hlen
    omega

/-- C9: on every accepted (left-deep) join tree, the walk produces one
join keyword per joined-table pair — the keyword list is one shorter than
the table list, whose length is the number of joined tables — `get_result`
renders exactly one fragment per keyword, and an individual join's
predicate renders wrapped in parentheses iff that join carries more than
one predicate. -/
theorem c9_join_counts_parens (env : FmtEnv) (t : E)
    (hj : isJoin t = true) (hsp : leftSpineOk t = true) :
    ∃ res, walkJoinTree env t ⟨[], [], []⟩ = Except.ok res ∧
      res.joinTypes.length + 1 = res.joinTables.length ∧
      res.joinTables.length = leafCount t ∧
      (zip3 res.joinTypes (res.joinTables.drop 1) res.joinPreds).length =
        res.joinTypes.length ∧
      (∀ ty ∈ res.joinTypes, ∃ jt, ty = joinName jt) ∧
      ∀ preds ∈ res.joinPreds, ∀ p ∈ preds,
        (renderJoinPred env.translatePred preds.length p =
          "(" ++ env.translatePred p ++ ")") ↔ 1 < preds.length := by
  obtain ⟨res, hres, h1, h2, h3, h4⟩ :=
    walkJoinTree_leftSpine (sizeOf t) t (Nat.le_refl _) hj hsp env
      ⟨[], [], []⟩
  simp only [List.length_nil, Nat.zero_add] at h1 h2 h3
  refine ⟨res, hres, by omega, by omega, ?_, ?_, ?_⟩
  · apply zip3_length_eq
    · simp
      omega
    · simp
      omega
  · intro ty hty
    rcases h4 ty hty with hty' | hty'
    · exact absurd hty' (List.not_mem_nil ty)
    · exact hty'
  · intro preds _ p _
    exact renderJoinPred_paren_iff env.translatePred preds.length p

/-- Witness for C9 at `(a INNER JOIN b ON p) LEFT OUTER JOIN c ON (q), (q)`
(a two-join, three-table left-deep tree). -/
theorem c9_join_counts_parens_witness :
    ∃ res,
      walkJoinTree ⟨freshCtx, fun _ => "", fun _ => "p"⟩
        (join JoinType.leftOuter
          (join JoinType.inner (physicalTable "a") (physicalTable "b")
            (EList.ofList [equalsOp (literal 1) (literal 1)]))
          (physicalTable "c")
          (EList.ofList [equalsOp (literal 2) (literal 2),
            equalsOp (literal 3) (literal 3)]))
        ⟨[], [], []⟩ = Except.ok res ∧
      res.joinTypes.length + 1 = res.joinTables.length ∧
      res.joinTables.length = leafCount
        (join JoinType.leftOuter
          (join JoinType.inner (physicalTable "a") (physicalTable "b")
            (EList.ofList [equalsOp (literal 1) (literal 1)]))
          (physicalTable "c")
          (EList.ofList [equalsOp (literal 2) (literal 2),
            equalsOp (literal 3) (literal 3)])) ∧
      (zip3 res.joinTypes (res.joinTables.drop 1) res.joinPreds).length =
        res.joinTypes.length ∧
      (∀ ty ∈ res.joinTypes, ∃ jt, ty = joinName jt) ∧
      ∀ preds ∈ res.joinPreds, ∀ p ∈ preds,
        (renderJoinPred (fun _ => "p") preds.length p =
          "(" ++ (fun (_ : E) => "p") p ++ ")") ↔ 1 < preds.length :=
  c9_join_counts_parens ⟨freshCtx, fun _ => "", fun _ => "p"⟩
    (join JoinType.leftOuter
      (join JoinType.inner (physicalTable "a") (physicalTable "b")
        (EList.ofList [equalsOp (literal 1) (literal 1)]))
      (physicalTable "c")
      (EList.ofList [equalsOp (literal 2) (literal 2),
        equalsOp (literal 3) (literal 3)]))
    rfl rfl

/-! ### Subquery extraction into WITH (`SelectBuilder._analyze_subqueries`).

The discovery of extraction candidates (`ExtractSubqueries.extract`, in
`extract_subqueries.py`) is not under src; the dedup loop below is the part
of `_analyze_subqueries` that is, and it is verified over an arbitrary
candidate list. -/

/-- One step of `_analyze_subqueries`' loop: skip a candidate already
marked extracted in the Query Context (possibly by an enclosing
compilation), otherwise append it to the statement's WITH list and mark
it extracted. -/
def extractStep (acc : Ctx × List E) (expr : E) : Ctx × List E :=
  if acc.1.isExtracted expr then acc
  else (acc.1.setExtracted expr, acc.2 ++ [expr])

/-- `SelectBuilder._analyze_subqueries`' loop over the candidate
subqueries found by `ExtractSubqueries.extract`, starting from an empty
WITH list (`self.subqueries = []`). -/
def analyzeSubqueriesLoop (ctx : Ctx) (found : List E) : Ctx × List E :=
  found.foldl extractStep (ctx, [])

theorem isExtracted_setExtracted (c : Ctx) (y e : E) :
    (c.setExtracted y).isExtracted e = (c.isExtracted e || decide (e = y)) := by
  cases c with
  | mk a cn x f p =>
      cases p with
      | none => simp [Ctx.setExtracted, Ctx.isExtracted, memE]
      | some q =>
          simp [Ctx.setExtracted, Ctx.isExtracted, memE]
          cases hq : Ctx.isExtracted q e <;>
            cases hx : decide (e ∈ x) <;>
              cases hy : decide (e = y) <;> simp_all

theorem extractLoop_spec (e : E) : ∀ (found : List E) (c : Ctx)
    (acc : List E),
    ((found.foldl extractStep (c, acc)).2.count e =
      acc.count e + (if c.isExtracted e then 0 else min 1 (found.count e))) ∧
    ((found.foldl extractStep (c, acc)).1.isExtracted e =
      (c.isExtracted e || found.contains e)) := by
  intro found
  induction found with
  | nil => intro c acc; simp
  | cons x rest ih =>
      intro c acc
      by_cases hcx : c.isExtracted x = true
      · have hstep : extractStep (c, acc) x = (c, acc) := by
          simp [extractStep, hcx]
        simp only [List.foldl_cons, hstep]
        obtain ⟨ih1, ih2⟩ := ih c acc
        constructor
        · rw [ih1]
          by_cases he : x = e
          · subst he
            have : c.isExtracted x = true := hcx
            simp [this]
          · have hbe : (x == e) = false := by
              simp [he]
            simp [List.count_cons, hbe]
        · rw [ih2]
          by_cases he : e = x
          · subst he
            simp [hcx]
          · simp [List.contains_cons, he]
      · have hcx' : c.isExtracted x = false := by
          simpa using hcx
        have hstep : extractStep (c, acc) x =
            (c.setExtracted x, acc ++ [x]) := by
          simp [extractStep, hcx']
        simp only [List.foldl_cons, hstep]
        obtain ⟨ih1, ih2⟩ := ih (c.setExtracted x) (acc ++ [x])
        constructor
        · rw [ih1]
          by_cases he : e = x
          · subst he
            simp [isExtracted_setExtracted, hcx', List.count_cons,
              List.count_append]
          · have hxe : ¬x = e := fun h => he h.symm
            simp [isExtracted_setExtracted, he, hxe, List.count_cons,
              List.count_append, List.count_singleton']
        · rw [ih2]
          by_cases he : e = x
          · subst he
            simp [isExtracted_setExtracted]
          · simp [isExtracted_setExtracted, he, List.contains_cons]

/-- C7: a candidate subquery already marked extracted in the Query
Context (possibly by an enclosing compilation) is skipped; otherwise it
is appended exactly once to the statement's WITH list — even when it
occurs repeatedly among the candidates — and is marked extracted in the
final context. -/
theorem c7_with_extraction_dedup (ctx : Ctx) (found : List E) (e : E) :
    ((analyzeSubqueriesLoop ctx found).2.count e =
      if ctx.isExtracted e then 0 else min 1 (found.count e)) ∧
    ((analyzeSubqueriesLoop ctx found).1.isExtracted e =
      (ctx.isExtracted e || found.contains e)) := by
  obtain ⟨h1, h2⟩ := extractLoop_spec e found ctx []
  exact ⟨by simpa using h1, h2⟩

/-! ### Size bounds for `flat_args`-directed recursion. -/

theorem sizeOf_lt_of_mem_toList : ∀ {l : EList} {a : E},
    a ∈ l.toList → sizeOf a < sizeOf l
  | EList.nil, a, h => by simp [EList.toList] at h
  | EList.cons hd t, a, h => by
      simp only [EList.toList, List.mem_cons] at h
      rcases h with h | h
      · subst h
        simp <;> omega
      · have hsz := @sizeOf_lt_of_mem_toList t a h
        simp <;> omega

theorem sizeOf_lt_of_mem_optToList {a : E} : ∀ {f : EOpt},
    a ∈ f.toList → sizeOf a < sizeOf f := by
  intro f
  cases f with
  | none => simp [EOpt.toList]
  | some e =>
      intro hm
      simp only [EOpt.toList, List.mem_singleton] at hm
      subst hm
      simp <;> omega

theorem sizeOf_lt_of_mem_flatArgs {a e : E} (h : a ∈ flatArgs e) :
    sizeOf a < sizeOf e := by
  cases e with
  | physicalTable n => simp [flatArgs] at h
  | selfReference t =>
      simp [flatArgs] at h
      subst h
      simp <;> omega
  | selection t s p k =>
      simp only [flatArgs, List.mem_cons, List.mem_append] at h
      rcases h with h | (h | h) | h <;>
        first
          | (subst h; simp <;> omega)
          | (have hsz := sizeOf_lt_of_mem_toList h; simp <;> omega)
  | aggregation t b m hv p k =>
      simp only [flatArgs, List.mem_cons, List.mem_append] at h
      rcases h with h | (((h | h) | h) | h) | h <;>
        first
          | (subst h; simp <;> omega)
          | (have hsz := sizeOf_lt_of_mem_toList h; simp <;> omega)
  | join jt l r p =>
      simp only [flatArgs, List.mem_cons] at h
      rcases h with h | h | h <;>
        first
          | (subst h; simp <;> omega)
          | (have hsz := sizeOf_lt_of_mem_toList h; simp <;> omega)
  | materializedJoin j =>
      simp [flatArgs] at h
      subst h
      simp <;> omega
  | limitOp t n o =>
      simp [flatArgs] at h
      subst h
      simp <;> omega
  | distinctOp t =>
      simp [flatArgs] at h
      subst h
      simp <;> omega
  | unionOp l r d =>
      simp only [flatArgs, List.mem_cons, List.not_mem_nil, or_false] at h
      rcases h with h | h <;> (subst h; simp <;> omega)
  | intersectionOp l r =>
      simp only [flatArgs, List.mem_cons, List.not_mem_nil, or_false] at h
      rcases h with h | h <;> (subst h; simp <;> omega)
  | differenceOp l r =>
      simp only [flatArgs, List.mem_cons, List.not_mem_nil, or_false] at h
      rcases h with h | h <;> (subst h; simp <;> omega)
  | tableColumn n t b =>
      simp [flatArgs] at h
      subst h
      simp <;> omega
  | literal v => simp [flatArgs] at h
  | equalsOp l r =>
      simp only [flatArgs, List.mem_cons, List.not_mem_nil, or_false] at h
      rcases h with h | h <;> (subst h; simp <;> omega)
  | andOp l r =>
      simp only [flatArgs, List.mem_cons, List.not_mem_nil, or_false] at h
      rcases h with h | h <;> (subst h; simp <;> omega)
  | anyOp x =>
      simp [flatArgs] at h
      subst h
      simp <;> omega
  | notAnyOp x =>
      simp [flatArgs] at h
      subst h
      simp <;> omega
  | existsSubquery f p =>
      simp only [flatArgs, List.mem_append] at h
      rcases h with h | h <;>
        first
          | (have hsz := sizeOf_lt_of_mem_optToList h; simp <;> omega)
          | (have hsz := sizeOf_lt_of_mem_toList h; simp <;> omega)
  | notExistsSubquery f p =>
      simp only [flatArgs, List.mem_append] at h
      rcases h with h | h <;>
        first
          | (have hsz := sizeOf_lt_of_mem_optToList h; simp <;> omega)
          | (have hsz := sizeOf_lt_of_mem_toList h; simp <;> omega)
  | tableArrayView t =>
      simp [flatArgs] at h
      subst h
      simp <;> omega
  | topK x k m =>
      simp only [flatArgs, List.mem_cons, List.not_mem_nil, or_false] at h
      rcases h with h | h <;> (subst h; simp <;> omega)
  | summaryFilter t =>
      simp [flatArgs] at h
      subst h
      simp <;> omega

/-! ### Any→Exists lowering (`_AnyToExistsTransform`).

Walk functions that recurse through `flat_args` are given explicit fuel;
the wrapper passes `sizeOf` of the walked node, which bounds the
recursion depth because every recursive call moves to a strictly smaller
node (`sizeOf_lt_of_mem_flatArgs`), so the fuel never runs out on the
calls the wrapper makes. -/

mutual

/-- A computable node size, used as recursion fuel for the `flat_args`
walks (the derived `SizeOf` instance of a mutual inductive has no
executable code). -/
def esize : E → Nat
  | physicalTable _ => 1
  | selfReference t => 1 + esize t
  | selection t s p k => 1 + esize t + elsize s + elsize p + elsize k
  | aggregation t b m h p k =>
      1 + esize t + elsize b + elsize m + elsize h + elsize p + elsize k
  | join _ l r p => 1 + esize l + esize r + elsize p
  | materializedJoin j => 1 + esize j
  | limitOp t _ _ => 1 + esize t
  | distinctOp t => 1 + esize t
  | unionOp l r _ => 1 + esize l + esize r
  | intersectionOp l r => 1 + esize l + esize r
  | differenceOp l r => 1 + esize l + esize r
  | tableColumn _ t _ => 1 + esize t
  | literal _ => 1
  | equalsOp l r => 1 + esize l + esize r
  | andOp l r => 1 + esize l + esize r
  | anyOp a => 1 + esize a
  | notAnyOp a => 1 + esize a
  | existsSubquery f p => 1 + eosize f + elsize p
  | notExistsSubquery f p => 1 + eosize f + elsize p
  | tableArrayView t => 1 + esize t
  | topK a _ m => 1 + esize a + esize m
  | summaryFilter t => 1 + esize t

def elsize : EList → Nat
  | EList.nil => 0
  | EList.cons h t => 1 + esize h + elsize t

def eosize : EOpt → Nat
  | EOpt.none => 0
  | EOpt.some e => 1 + esize e

end

/-- `L.flatten_predicate` (from `ibis.expr.analysis`, not under src).
Modelled from the spec: splits a boolean predicate into the list of its
conjuncts, recursing through `And`. -/
def flattenPredicate : E → List E
  | andOp l r => flattenPredicate l ++ flattenPredicate r
  | e => [e]

/-- `_AnyToExistsTransform._find_blocking_table` (fueled): a blocking node
is returned as-is, otherwise the first blocking table found among the flat
args, depth-first left-to-right. -/
def findBlockingTableF : Nat → E → Option E
  | 0, _ => Option.none
  | fuel + 1, e =>
      if blocks e then Option.some e
      else
        (flatArgs e).foldl
          (fun acc a =>
            match acc with
            | Option.some r => Option.some r
            | Option.none => findBlockingTableF fuel a)
          Option.none

/-- `_AnyToExistsTransform._find_blocking_table`. -/
def findBlockingTable (e : E) : Option E := findBlockingTableF (esize e) e

/-- The transform's mutable state: `self.foreign_table` and
`self.predicates`. -/
structure AnyState where
  foreignTable : Option E
  predicates : List E
  deriving DecidableEq, Repr

/-- `_AnyToExistsTransform._visit_table`.  `_visit_table` is only invoked
on table expressions (the `_visit` dispatch guards on `ir.TableExpr`), so
the source's non-table branch — recursing into the flat args of a
non-blocking value node — is unreachable and elided.  A table whose
blocking base is not among the parent table's query roots is recorded as
the foreign reference. -/
def anyVisitTable (roots : List E) (st : AnyState) (expr : E) : AnyState :=
  match findBlockingTable expr with
  | Option.some baseTable =>
      if memE baseTable roots then st
      else { st with foreignTable := Option.some expr }
  | Option.none => st

/-- `_AnyToExistsTransform._visit` (fueled): iterate the node's flat args;
a table arg goes to `_visit_table`; a boolean-column arg is split by
`flatten_predicate`, each conjunct appended to the collected predicates
and then visited; any other expression arg is visited recursively. -/
def anyVisitF : Nat → List E → E → AnyState → AnyState
  | 0, _, _, st => st
  | fuel + 1, roots, e, st =>
      (flatArgs e).foldl
        (fun st a =>
          if isTableExpr a then anyVisitTable roots st a
          else if isBooleanColumn a then
            (flattenPredicate a).foldl
              (fun st2 sub =>
                anyVisitF fuel roots sub
                  { st2 with predicates := st2.predicates ++ [sub] })
              st
          else anyVisitF fuel roots a st)
        st

/-- `_AnyToExistsTransform._visit` from the top of the predicate. -/
def anyVisit (roots : List E) (e : E) (st : AnyState) : AnyState :=
  anyVisitF (esize e) roots e st

/-- The result type of the lowering: `dt.boolean.column_type()` in the
source wraps the produced node as a boolean column expression. -/
inductive DTypeB where
  | booleanColumn
  | nonBoolean
  deriving DecidableEq, Repr

/-- A typed expression, as returned by `get_result`
(`expr_type(op)` with `expr_type = dt.boolean.column_type()`). -/
structure TypedE where
  dtype : DTypeB
  node : E
  deriving DecidableEq, Repr

/-- Wrap an optional node. -/
def toEOpt : Option E → EOpt
  | Option.none => EOpt.none
  | Option.some e => EOpt.some e

/-- `_AnyToExistsTransform.get_result`: walk the predicate from a fresh
state, then build `ExistsSubquery(foreign_table, predicates)` when the
root operator's exact type is `ops.Any` and `NotExistsSubquery` otherwise
(`ops.NotAny` subclasses `ops.Any` in ibis, and the source tests
`type(self.expr.op()) == ops.Any`, so only a root `Any` selects the
`Exists` form), typed as a boolean column.  The context passed by the
Select Builder is stored but unused by the source's `get_result` path. -/
def anyToExistsGetResult (_ctx : Ctx) (expr : E) (parentTable : E) :
    TypedE :=
  let roots := rootTables parentTable
  let st := anyVisit roots expr ⟨Option.none, []⟩
  let op : E :=
    match expr with
    | anyOp _ =>
        existsSubquery (toEOpt st.foreignTable) (EList.ofList st.predicates)
    | _ =>
        notExistsSubquery (toEOpt st.foreignTable)
          (EList.ofList st.predicates)
  ⟨DTypeB.booleanColumn, op⟩

/-- A concrete `Any` scenario: the predicate `t.x = f.y` relating the
parent table `t` to one foreign table `f`. -/
def c1ScenPred : E :=
  equalsOp (tableColumn "x" (physicalTable "t") false)
    (tableColumn "y" (physicalTable "f") false)

/-- C1: lowering an `Any` (resp. `NotAny`) filter predicate against the
current table-set yields a boolean-column-typed expression whose node is
`ExistsSubquery` (resp. `NotExistsSubquery`) carrying the foreign table
found by the walk and the boolean sub-predicates it collected; on the
concrete scenario `Any(t.x = f.y)` over parent table `t` the foreign
table is `f` and the collected predicate list is `[t.x = f.y]`. -/
theorem c1_any_exists_lowering :
    (∀ (ctx : Ctx) (p parentTable : E),
      anyToExistsGetResult ctx (anyOp p) parentTable =
        ⟨DTypeB.booleanColumn,
          existsSubquery
            (toEOpt (anyVisit (rootTables parentTable) (anyOp p)
              ⟨Option.none, []⟩).foreignTable)
            (EList.ofList (anyVisit (rootTables parentTable) (anyOp p)
              ⟨Option.none, []⟩).predicates)⟩) ∧
    (∀ (ctx : Ctx) (p parentTable : E),
      anyToExistsGetResult ctx (notAnyOp p) parentTable =
        ⟨DTypeB.booleanColumn,
          notExistsSubquery
            (toEOpt (anyVisit (rootTables parentTable) (notAnyOp p)
              ⟨Option.none, []⟩).foreignTable)
            (EList.ofList (anyVisit (rootTables parentTable) (notAnyOp p)
              ⟨Option.none, []⟩).predicates)⟩) ∧
    anyToExistsGetResult freshCtx (anyOp c1ScenPred) (physicalTable "t") =
      ⟨DTypeB.booleanColumn,
        existsSubquery (EOpt.some (physicalTable "f"))
          (EList.ofList [c1ScenPred])⟩ ∧
    anyToExistsGetResult freshCtx (notAnyOp c1ScenPred) (physicalTable "t") =
      ⟨DTypeB.booleanColumn,
        notExistsSubquery (EOpt.some (physicalTable "f"))
          (EList.ofList [c1ScenPred])⟩ := by
  refine ⟨fun ctx p pt => rfl, fun ctx p pt => rfl, ?_, ?_⟩ <;> rfl

/-! ### Correlated-root check (`_CorrelatedRefCheck`). -/

/-- `_CorrelatedRefCheck.is_subquery`: a sub-select-like boundary —
a table-array view, an existence subquery, or a column reference whose
table is not a query root. -/
def isSubqueryNode (roots : List E) : E → Bool
  | tableArrayView _ => true
  | existsSubquery .. => true
  | notExistsSubquery .. => true
  | tableColumn _ t _ => !(memE t roots)
  | _ => false

/-- The checker's mutable state: the visit cache, the two correlation
flags, and the Query Context mutated by alias side effects.  The
`encounters` field is ghost instrumentation recording each `ref_check`
invocation as its (node, in-subquery flag) pair; it does not influence
the computation and exists so the theorems can state what the walk
encountered. -/
structure CrState where
  visitCache : List (E × Bool)
  hasForeignRoot : Bool
  hasQueryRoot : Bool
  ctx : Ctx
  encounters : List (E × Bool)

/-- `_CorrelatedRefCheck.ref_check`: on a root node inside a subquery set
`has_query_root`; on a foreign node inside a subquery set
`has_foreign_root` and reuse an ancestor alias by minting one here when
the node is unaliased locally but aliased up the parent chain; on a
foreign node at top level mint an alias when none exists. -/
def refCheck (roots : List E) (node : E) (inSub : Bool) (st : CrState) :
    CrState :=
  let isAliased := st.ctx.hasRefLocal node
  let st := { st with encounters := st.encounters ++ [(node, inSub)] }
  if memE node roots then
    if inSub then { st with hasQueryRoot := true } else st
  else
    if inSub then
      let st := { st with hasForeignRoot := true }
      if !isAliased && st.ctx.hasRefChain node then
        { st with ctx := st.ctx.makeAlias node }
      else st
    else
      if !(st.ctx.hasRefLocal node) then
        { st with ctx := st.ctx.makeAlias node }
      else st

/-- The `ref_check` dispatch of `visit_table`: `ref_check` runs only on
physical tables and self references. -/
def crTableStep (roots : List E) (e : E) (inSub : Bool) (st : CrState) :
    CrState :=
  match e with
  | physicalTable _ => refCheck roots e inSub st
  | selfReference _ => refCheck roots e inSub st
  | _ => st

mutual

/-- `_CorrelatedRefCheck.visit` (fueled): skip an already-visited
(node, flag) pair, extend the in-subquery flag across subquery
boundaries, then dispatch table args to `visit_table` and other
expression args to `visit`, threading the optional table-visit cache. -/
def crVisitF : Nat → List E → E → Bool → CrState →
    Option (List (E × Bool)) → CrState × Option (List (E × Bool))
  | 0, _, _, _, st, tc => (st, tc)
  | fuel + 1, roots, e, inSub, st, tc =>
      if st.visitCache.contains (e, inSub) then (st, tc)
      else
        let st := { st with visitCache := st.visitCache ++ [(e, inSub)] }
        let inSub2 := inSub || isSubqueryNode roots e
        (flatArgs e).foldl
          (fun acc a =>
            if isTableExpr a then
              crVisitTableF fuel roots a inSub2 acc.1 acc.2
            else crVisitF fuel roots a inSub2 acc.1 acc.2)
          (st, tc)

/-- `_CorrelatedRefCheck.visit_table` (fueled): create a fresh table-visit
cache when handed none (the caller's `None` variable stays `None` on
return, exactly as in the source, where sibling calls then each start
their own cache), skip an already-visited (expr, flag) pair, run
`ref_check` on physical tables and self references, then visit the flat
args with the in-subquery flag unchanged. -/
def crVisitTableF : Nat → List E → E → Bool → CrState →
    Option (List (E × Bool)) → CrState × Option (List (E × Bool))
  | 0, _, _, _, st, tc => (st, tc)
  | fuel + 1, roots, e, inSub, st, tc =>
      let tco := tc.getD []
      if tco.contains (e, inSub) then (st, tc)
      else
        let tco := tco ++ [(e, inSub)]
        let st := crTableStep roots e inSub st
        let res :=
          (flatArgs e).foldl
            (fun acc a => crVisitF fuel roots a inSub acc.1 acc.2)
            (st, Option.some tco)
        (res.1,
          match tc with
          | Option.none => Option.none
          | Option.some _ => res.2)

end

/-- `_CorrelatedRefCheck.get_result` for a query with the given table set
and context: walk the candidate predicate from a fresh state and return
`has_query_root and has_foreign_root`. -/
def crGetResult (tableSet : E) (ctx : Ctx) (expr : E) : Bool :=
  let roots := rootTables tableSet
  let st :=
    (crVisitF (esize expr) roots expr false ⟨[], false, false, ctx, []⟩
      Option.none).1
  st.hasQueryRoot && st.hasForeignRoot

/-- The invariant tying each correlation flag to the ghost encounter
record: a flag is set exactly when some recorded `ref_check` invocation
saw a root (resp. foreign) node with the in-subquery flag on. -/
def crInv (roots : List E) (st : CrState) : Prop :=
  st.hasQueryRoot = st.encounters.any (fun p => memE p.1 roots && p.2) ∧
  st.hasForeignRoot = st.encounters.any (fun p => !(memE p.1 roots) && p.2)

theorem refCheck_inv {roots : List E} {st : CrState} (node : E)
    (inSub : Bool) (h : crInv roots st) :
    crInv roots (refCheck roots node inSub st) := by
  obtain ⟨h1, h2⟩ := h
  unfold refCheck crInv
  by_cases hm : memE node roots = true
  · cases inSub <;> simp [hm, h1, h2, List.any_append]
  · have hm' : memE node roots = false := by simpa using hm
    cases inSub
    · by_cases ha : st.ctx.hasRefLocal node = true <;>
        simp [hm', ha, h1, h2, List.any_append]
    · by_cases hb :
        (!st.ctx.hasRefLocal node &&
          Ctx.hasRefChain
            { st with
                encounters := st.encounters ++ [(node, true)] }.ctx
            node) = true <;>
        simp [hm', hb, h1, h2, List.any_append]

theorem foldl_preserves {σ α : Type} (P : σ → Prop) (f : σ → α → σ)
    (l : List α) (hf : ∀ a ∈ l, ∀ s, P s → P (f s a)) :
    ∀ s, P s → P (l.foldl f s) := by
  induction l with
  | nil => intro s hs; simpa
  | cons x xs ih =>
      intro s hs
      simp only [List.foldl_cons]
      exact ih (fun a ha s' hs' => hf a (List.mem_cons_of_mem _ ha) s' hs')
        _ (hf x (List.mem_cons_self _ _) s hs)

theorem crWalk_inv (fuel : Nat) :
    (∀ (roots : List E) (e : E) (inSub : Bool) (st : CrState)
      (tc : Option (List (E × Bool))), crInv roots st →
        crInv roots (crVisitF fuel roots e inSub st tc).1) ∧
    (∀ (roots : List E) (e : E) (inSub : Bool) (st : CrState)
      (tc : Option (List (E × Bool))), crInv roots st →
        crInv roots (crVisitTableF fuel roots e inSub st tc).1) := by
  induction fuel with
  | zero =>
      constructor <;>
        (intro roots e inSub st tc h
         simpa [crVisitF, crVisitTableF])
  | succ fuel ih =>
      constructor
      · intro roots e inSub st tc h
        simp only [crVisitF]
        by_cases hc : st.visitCache.contains (e, inSub) = true
        · rw [if_pos hc]
          exact h
        · rw [if_neg hc]
          refine foldl_preserves
            (fun acc : CrState × Option (List (E × Bool)) =>
              crInv roots acc.1) _ _ ?_ _ ?_
          · intro a _ha acc hacc
            by_cases ht : isTableExpr a = true
            · simpa [ht] using ih.2 roots a _ acc.1 acc.2 hacc
            · simpa [ht] using ih.1 roots a _ acc.1 acc.2 hacc
          · exact h
      · intro roots e inSub st tc h
        simp only [crVisitTableF]
        by_cases hc : (tc.getD []).contains (e, inSub) = true
        · rw [if_pos hc]
          exact h
        · rw [if_neg hc]
          have hstep : crInv roots (crTableStep roots e inSub st) := by
            unfold crTableStep
            cases e <;> first
              | exact refCheck_inv _ _ h
              | exact h
          have hfold := foldl_preserves
            (fun acc : CrState × Option (List (E × Bool)) =>
              crInv roots acc.1)
            (fun acc a => crVisitF fuel roots a inSub acc.1 acc.2)
            (flatArgs e)
            (fun a _ha acc hacc => ih.1 roots a inSub acc.1 acc.2 hacc)
            (crTableStep roots e inSub st,
              Option.some (tc.getD [] ++ [(e, inSub)]))
            hstep
          cases tc <;> simpa using hfold

/-- C2: the correlated-root check returns true exactly when, during its
walk of the candidate predicate, at least one table reference that is a
root of the current statement's table set and at least one table
reference foreign to it were both encountered (`ref_check`ed) while the
inside-a-subquery flag was set. -/
theorem c2_correlated_iff_both_roots_in_subquery (tableSet : E) (ctx : Ctx)
    (expr : E) :
    crGetResult tableSet ctx expr = true ↔
      ((∃ p ∈ (crVisitF (esize expr) (rootTables tableSet) expr false
          ⟨[], false, false, ctx, []⟩ Option.none).1.encounters,
          memE p.1 (rootTables tableSet) = true ∧ p.2 = true) ∧
       (∃ p ∈ (crVisitF (esize expr) (rootTables tableSet) expr false
          ⟨[], false, false, ctx, []⟩ Option.none).1.encounters,
          memE p.1 (rootTables tableSet) = false ∧ p.2 = true)) := by
  have h := (crWalk_inv (esize expr)).1 (rootTables tableSet) expr false
    ⟨[], false, false, ctx, []⟩ Option.none ⟨rfl, rfl⟩
  obtain ⟨h1, h2⟩ := h
  simp [crGetResult, h1, h2, List.any_eq_true]

/-! ### Select Builder (`SelectBuilder`): state, filter analysis,
collection, and `get_result`. -/

/-- The synchronous error kinds raised by the builder paths embedded
here. -/
inductive BErr where
  | notImplemented
  | internalNoTableSet
  | attributeErrorNoWrapResult
  deriving DecidableEq, Repr

/-- The `Select` statement's resolved fields (`Select.__init__`).  The
context object, the result handler (a function) and the parent expression
are omitted: none of the properties verified here inspects them. -/
structure SelectStmt where
  tableSet : Option E
  selectSet : List E
  subqueries : List E
  whereList : List E
  groupBy : List Nat
  having : List E
  limit : Option (Nat × Nat)
  orderBy : List E
  distinct : Bool
  deriving DecidableEq, Repr

/-- The Select Builder's working state (`SelectBuilder.__init__`). -/
structure SB where
  tableSet : Option E
  selectSet : List E
  groupBy : List Nat
  having : List E
  filters : List E
  limit : Option (Nat × Nat)
  sortBy : List E
  subqueries : List E
  distinct : Bool
  opMemo : List E
  context : Ctx
  queries : List SelectStmt

/-- A fresh builder state over a context. -/
def initSB (ctx : Ctx) : SB :=
  { tableSet := Option.none, selectSet := [], groupBy := [], having := [],
    filters := [], limit := Option.none, sortBy := [], subqueries := [],
    distinct := false, opMemo := [], context := ctx, queries := [] }

/-- `ir.TopKExpr.to_aggregation` (not under src).  Modelled from the
spec: the ranking aggregation groups the parent table by the top-K key,
aggregates the ranking metric, sorts by it and keeps the top k rows. -/
def topKToAggregation (arg : E) (k : Nat) (metric : E) (parentTable : E) :
    E :=
  limitOp
    (aggregation parentTable (EList.ofList [arg]) (EList.ofList [metric])
      EList.nil EList.nil (EList.ofList [metric]))
    k 0

/-- `SelectBuilder._visit_filter` (fueled): dispatch named handlers for
`Any`/`NotAny` (lowered through `_AnyToExistsTransform` against the
current table set) and `SummaryFilter` (top-K: the table set is replaced
in place by a left-semi-join of the current table set with the ranking
aggregation, joined on the grouping key, and no predicate is returned);
binary operators recurse into both operands and rebuild only on change;
boolean value ops, table columns and literals pass through; other value
ops recurse into their arguments; anything else (a table expression as a
filter) raises.  (The source's scalar-reduction rewrite branch has no
corresponding node kind here and is vacuous.)  A `None` child produced
under a binary or generic value op would crash the source's operator
re-construction and is embedded as an error. -/
def visitFilterF : Nat → SB → E → Except BErr (SB × Option E)
  | 0, s, e => Except.ok (s, Option.some e)
  | fuel + 1, s, e =>
      match e with
      | anyOp _ =>
          (match s.tableSet with
           | Option.some ts =>
               Except.ok
                 (s, Option.some (anyToExistsGetResult s.context e ts).node)
           | Option.none => Except.error BErr.internalNoTableSet)
      | notAnyOp _ =>
          (match s.tableSet with
           | Option.some ts =>
               Except.ok
                 (s, Option.some (anyToExistsGetResult s.context e ts).node)
           | Option.none => Except.error BErr.internalNoTableSet)
      | summaryFilter tk =>
          (match s.tableSet with
           | Option.none => Except.error BErr.internalNoTableSet
           | Option.some ts =>
               match tk with
               | topK arg k metric =>
                   (match arg with
                    | tableColumn nm tbl b =>
                        let rankSet :=
                          topKToAggregation (tableColumn nm tbl b) k metric ts
                        let pred :=
                          equalsOp (tableColumn nm tbl b)
                            (tableColumn nm rankSet b)
                        Except.ok
                          ({ s with
                              tableSet :=
                                Option.some
                                  (join JoinType.leftSemi ts rankSet
                                    (EList.ofList [pred])) },
                            Option.none)
                    | _ => Except.error BErr.notImplemented)
               | _ => Except.error BErr.notImplemented)
      | equalsOp l r => do
          let (s1, lv) ← visitFilterF fuel s l
          let (s2, rv) ← visitFilterF fuel s1 r
          match lv, rv with
          | Option.some l', Option.some r' =>
              Except.ok
                (s2, Option.some (if l' = l ∧ r' = r then e else equalsOp l' r'))
          | _, _ => Except.error BErr.notImplemented
      | andOp l r => do
          let (s1, lv) ← visitFilterF fuel s l
          let (s2, rv) ← visitFilterF fuel s1 r
          match lv, rv with
          | Option.some l', Option.some r' =>
              Except.ok
                (s2, Option.some (if l' = l ∧ r' = r then e else andOp l' r'))
          | _, _ => Except.error BErr.notImplemented
      | tableColumn .. => Except.ok (s, Option.some e)
      | literal _ => Except.ok (s, Option.some e)
      | existsSubquery .. => Except.ok (s, Option.some e)
      | notExistsSubquery .. => Except.ok (s, Option.some e)
      | topK arg k metric => do
          let (s1, av) ← visitFilterF fuel s arg
          let (s2, mv) ← visitFilterF fuel s1 metric
          match av, mv with
          | Option.some a', Option.some m' =>
              Except.ok
                (s2,
                  Option.some
                    (if a' = arg ∧ m' = metric then e else topK a' k m'))
          | _, _ => Except.error BErr.notImplemented
      | tableArrayView t => do
          let (s1, tv) ← visitFilterF fuel s t
          match tv with
          | Option.some t' =>
              Except.ok
                (s1, Option.some (if t' = t then e else tableArrayView t'))
          | _ => Except.error BErr.notImplemented
      | _ => Except.error BErr.notImplemented

/-- `SelectBuilder._analyze_filter_exprs` (fueled): rewrite each filter
predicate in order, dropping rewrites that produce no output predicate,
and replace the builder's filter list with the collected results. -/
def analyzeFilterExprsF (fuel : Nat) (s : SB) : Except BErr SB := do
  let res ← s.filters.foldlM
    (fun (acc : SB × List E) expr => do
      let (s', newExpr) ← visitFilterF fuel acc.1 expr
      match newExpr with
      | Option.some ne => pure (s', acc.2 ++ [ne])
      | Option.none => pure (s', acc.2))
    (s, ([] : List E))
  pure { res.1 with filters := res.2 }

/-- C3: rewriting a `SummaryFilter` over a named top-K key replaces the
builder's table set in place by a left-semi-join between the current
table set and the ranking aggregation derived from the summary, joined on
the grouping key, and returns no predicate; consequently, on a filter
list holding a boolean column and a top-K filter, `_analyze_filter_exprs`
leaves only the boolean column in the final WHERE list while the table
set has become the semi-join. -/
theorem c3_topk_semijoin_rewrite :
    (∀ (fuel : Nat) (s : SB) (ts : E) (nm : String) (tbl : E) (b : Bool)
      (k : Nat) (metric : E), s.tableSet = Option.some ts →
      visitFilterF (fuel + 1) s
          (summaryFilter (topK (tableColumn nm tbl b) k metric)) =
        Except.ok
          ({ s with
              tableSet :=
                Option.some
                  (join JoinType.leftSemi ts
                    (topKToAggregation (tableColumn nm tbl b) k metric ts)
                    (EList.ofList
                      [equalsOp (tableColumn nm tbl b)
                        (tableColumn nm
                          (topKToAggregation (tableColumn nm tbl b) k metric
                            ts) b)])) },
            Option.none)) ∧
    analyzeFilterExprsF 9
        { initSB freshCtx with
            tableSet := Option.some (physicalTable "t"),
            filters :=
              [tableColumn "flag" (physicalTable "t") true,
               summaryFilter
                 (topK (tableColumn "g" (physicalTable "t") false) 5
                   (tableColumn "m" (physicalTable "t") false))] } =
      Except.ok
        { initSB freshCtx with
            tableSet :=
              Option.some
                (join JoinType.leftSemi (physicalTable "t")
                  (topKToAggregation
                    (tableColumn "g" (physicalTable "t") false) 5
                    (tableColumn "m" (physicalTable "t") false)
                    (physicalTable "t"))
                  (EList.ofList
                    [equalsOp (tableColumn "g" (physicalTable "t") false)
                      (tableColumn "g"
                        (topKToAggregation
                          (tableColumn "g" (physicalTable "t") false) 5
                          (tableColumn "m" (physicalTable "t") false)
                          (physicalTable "t")) false)])),
            filters := [tableColumn "flag" (physicalTable "t") true] } := by
  constructor
  · intro fuel s ts nm tbl b k metric hts
    simp [visitFilterF, hts]
  · rfl

/-- Witness for C3's general conjunct at a concrete builder state. -/
theorem c3_topk_semijoin_rewrite_witness :
    visitFilterF 1
        { initSB freshCtx with tableSet := Option.some (physicalTable "t") }
        (summaryFilter
          (topK (tableColumn "g" (physicalTable "t") false) 5
            (tableColumn "m" (physicalTable "t") false))) =
      Except.ok
        ({ { initSB freshCtx with
              tableSet := Option.some (physicalTable "t") } with
            tableSet :=
              Option.some
                (join JoinType.leftSemi (physicalTable "t")
                  (topKToAggregation
                    (tableColumn "g" (physicalTable "t") false) 5
                    (tableColumn "m" (physicalTable "t") false)
                    (physicalTable "t"))
                  (EList.ofList
                    [equalsOp (tableColumn "g" (physicalTable "t") false)
                      (tableColumn "g"
                        (topKToAggregation
                          (tableColumn "g" (physicalTable "t") false) 5
                          (tableColumn "m" (physicalTable "t") false)
                          (physicalTable "t")) false)])) },
          Option.none) :=
  c3_topk_semijoin_rewrite.1 0
    { initSB freshCtx with tableSet := Option.some (physicalTable "t") }
    (physicalTable "t") "g" (physicalTable "t") false 5
    (tableColumn "m" (physicalTable "t") false) rfl

/-! ### Collection (`SelectBuilder._collect_elements` and the
`_collect_*` dispatch). -/

/-- `SelectBuilder._convert_group_by`: positions `0..k-1` (rendered
1-based later). -/
def convertGroupBy (exprs : List E) : List Nat := List.range exprs.length

/-- `L.substitute_parents` (from `ibis.expr.analysis`, not under src).
Modelled from the spec: the spec does not describe the parent-substitution
rewrite applied by `_sub`, so it is modelled as the identity rewrite;
every use below reads the substituted node's fields, which under the
identity model equal the original's. -/
def substituteParents (e : E) : E := e

/-- `SelectBuilder._get_subtables`: depth-first left-to-right leaves of a
join tree, skipping nodes already seen. -/
def getSubtablesAux (e : E) (seen : List E) (acc : List E) :
    List E × List E :=
  if memE e seen then (seen, acc)
  else
    let seen := seen ++ [e]
    match e with
    | join _ l r _ =>
        let (s1, a1) := getSubtablesAux l seen acc
        getSubtablesAux r s1 a1
    | _ => (seen, acc ++ [e])

/-- `SelectBuilder._get_subtables`. -/
def getSubtables (e : E) : List E := (getSubtablesAux e [] []).2

/-- `SelectBuilder._blocking_base` (fueled): the node itself when
blocking or a join, otherwise the blocking base of its first table-typed
flat arg (none when there is no table arg, as in the source's implicit
`None`). -/
def blockingBaseF : Nat → E → Option E
  | 0, _ => Option.none
  | fuel + 1, e =>
      if blocks e || isJoin e then Option.some e
      else
        match (flatArgs e).find? isTableExpr with
        | Option.some a => blockingBaseF fuel a
        | Option.none => Option.none

/-- `SelectBuilder._blocking_base`. -/
def blockingBase (e : E) : Option E := blockingBaseF (esize e) e

/-- `SelectBuilder._all_distinct_roots`: false iff two joined subtables
share a blocking base. -/
def allDistinctRoots (subtables : List E) : Bool :=
  (subtables.foldl
    (fun (acc : Bool × List (Option E)) t =>
      let base := blockingBase t
      if acc.2.contains base then (false, acc.2 ++ [base])
      else (acc.1, acc.2 ++ [base]))
    (true, [])).1

/-- `self.op_memo.add(op)`, run after a successful `_collect` dispatch. -/
def memoAdd (e : E) (s : SB) : SB :=
  { s with
      opMemo := if memE e s.opMemo then s.opMemo else s.opMemo ++ [e] }

mutual

/-- `SelectBuilder._collect` (fueled): skip a node already in the op
memo, dispatch on the node kind (each branch mirrors the corresponding
`_collect_*` method; node kinds with no handler raise), then add the node
to the memo.  `_sub` is the identity under the modelled
`substitute_parents`, so the substituted fields coincide with the
originals. -/
def collectF : Nat → E → Bool → SB → Except BErr SB
  | 0, _, _, s => Except.ok s
  | fuel + 1, e, toplevel, s =>
      if memE e s.opMemo then Except.ok s
      else
        let dispatched : Except BErr SB :=
          match e with
          | distinctOp t =>
              -- `_collect_Distinct`
              let s := if toplevel then { s with distinct := true } else s
              collectF fuel t toplevel s
          | limitOp t n o =>
              -- `_collect_Limit`: nothing at all when not toplevel;
              -- otherwise record the limit only if none is recorded yet,
              -- then keep collecting the wrapped table at toplevel
              if !toplevel then Except.ok s
              else
                let s :=
                  if s.limit = Option.none then
                    { s with limit := Option.some (n, o) }
                  else s
                collectF fuel t toplevel s
          | unionOp .. =>
              -- `_collect_Union`
              if toplevel then Except.error BErr.notImplemented
              else Except.ok s
          | aggregation t b m h p k =>
              -- `_collect_Aggregation`
              if toplevel then
                collectF fuel t false
                  { s with
                      groupBy := convertGroupBy b.toList,
                      having := h.toList,
                      selectSet := b.toList ++ m.toList,
                      tableSet := Option.some t,
                      filters := p.toList,
                      sortBy := k.toList }
              else Except.ok s
          | selection t sels preds keys =>
              -- `_collect_Selection`
              if toplevel then
                Except.map
                  (fun pr : SB × Bool =>
                    let selections :=
                      if sels.toList.length = 0 then [t] else sels.toList
                    { pr.1 with
                        sortBy := keys.toList,
                        selectSet := selections,
                        tableSet := Option.some t,
                        filters := preds.toList })
                  (if isJoin t then collectJoinF fuel t false s
                   else
                     Except.map (fun s' => (s', false))
                       (collectF fuel t false s))
              else Except.ok s
          | materializedJoin j =>
              -- `_collect_MaterializedJoin`
              let s :=
                if toplevel then
                  { s with tableSet := Option.some j, selectSet := [j] }
                else s
              Except.map Prod.fst (collectJoinF fuel j false s)
          | join jt l r p =>
              Except.map Prod.fst
                (collectJoinF fuel (join jt l r p) toplevel s)
          | physicalTable nm =>
              -- `_collect_PhysicalTable`
              Except.ok
                (if toplevel then
                  { s with
                      selectSet := [physicalTable nm],
                      tableSet := Option.some (physicalTable nm) }
                 else s)
          | selfReference t =>
              -- `_collect_SelfReference`
              if toplevel then collectF fuel t toplevel s else Except.ok s
          | _ => Except.error BErr.notImplemented
        Except.map (memoAdd e) dispatched

/-- `SelectBuilder._collect_Join` (fueled): at toplevel install the
(substituted, here identity) join as table-set and wildcard select-set;
then, when every joined subtable has a distinct blocking root, collect
each subtable; return whether substitution was safe. -/
def collectJoinF : Nat → E → Bool → SB → Except BErr (SB × Bool)
  | 0, _, _, s => Except.ok (s, false)
  | fuel + 1, e, toplevel, s =>
      let s :=
        if toplevel then { s with tableSet := Option.some e, selectSet := [e] }
        else s
      let subtables := getSubtables e
      let canSub := allDistinctRoots subtables
      if canSub then
        Except.map (fun s' => (s', canSub))
          (subtables.foldlM (fun s t => collectF fuel t false s) s)
      else Except.ok (s, canSub)

end

/-- `SelectBuilder._collect_elements`: materialize an unmaterialized join
root, collect table-rooted expressions at toplevel and require a
populated table set; a non-table root becomes the select set directly
(the `ExpressionList` case has no corresponding node kind here). -/
def collectElementsF (fuel : Nat) (queryExpr : E) (s : SB) :
    Except BErr SB :=
  let sourceExpr :=
    if isJoin queryExpr then materializedJoin queryExpr else queryExpr
  if isTableExpr queryExpr then do
    let s' ← collectF fuel sourceExpr true s
    if s'.tableSet = Option.none then Except.error BErr.internalNoTableSet
    else Except.ok s'
  else Except.ok { s with selectSet := [queryExpr] }

theorem exceptMap_ok {α β : Type} {f : α → β} {x : Except BErr α} {y : β}
    (h : Except.map f x = Except.ok y) : ∃ v, x = Except.ok v ∧ y = f v := by
  cases x with
  | error m => simp [Except.map] at h
  | ok v =>
      refine ⟨v, rfl, ?_⟩
      simpa [Except.map] using h.symm

theorem foldlM_preserves {α : Type} (P : SB → Prop)
    (f : SB → α → Except BErr SB) (l : List α)
    (hf : ∀ a ∈ l, ∀ s s', P s → f s a = Except.ok s' → P s') :
    ∀ s s', P s → l.foldlM f s = Except.ok s' → P s' := by
  induction l with
  | nil =>
      intro s s' hs h
      cases h
      exact hs
  | cons x xs ih =>
      intro s s' hs h
      rw [List.foldlM_cons] at h
      cases hfx : f s x with
      | error m =>
          rw [hfx] at h
          cases h
      | ok s1 =>
          rw [hfx] at h
          exact ih
            (fun a ha t t' ht hft => hf a (List.mem_cons_of_mem _ ha) t t' ht hft)
            s1 s' (hf x (List.mem_cons_self _ _) s s1 hs hfx) h

theorem collect_limit_preserved (fuel : Nat) :
    (∀ (e : E) (toplevel : Bool) (s s' : SB) (l : Nat × Nat),
      s.limit = Option.some l → collectF fuel e toplevel s = Except.ok s' →
        s'.limit = Option.some l) ∧
    (∀ (e : E) (toplevel : Bool) (s : SB) (r : SB × Bool) (l : Nat × Nat),
      s.limit = Option.some l →
        collectJoinF fuel e toplevel s = Except.ok r →
        r.1.limit = Option.some l) := by
  induction fuel with
  | zero =>
      constructor
      · intro e top s s' l hl hok
        simp only [collectF] at hok
        cases hok
        exact hl
      · intro e top s r l hl hok
        simp only [collectJoinF] at hok
        cases hok
        exact hl
  | succ fuel ih =>
      constructor
      · intro e top s s' l hl hok
        simp only [collectF] at hok
        by_cases hm : memE e s.opMemo = true
        · rw [if_pos hm] at hok
          cases hok
          exact hl
        · rw [if_neg hm] at hok
          rcases exceptMap_ok hok with ⟨s2, hdisp, hs'⟩
          subst hs'
          have hlim : (memoAdd e s2).limit = s2.limit := rfl
          rw [hlim]
          cases e with
          | physicalTable nm =>
              cases hdisp
              cases top <;> simpa using hl
          | selfReference t =>
              cases top with
              | false => cases hdisp; exact hl
              | true => exact ih.1 t true s s2 l hl hdisp
          | distinctOp t =>
              refine ih.1 t top _ s2 l ?_ hdisp
              cases top <;> simpa using hl
          | limitOp t n o =>
              cases top with
              | false =>
                  simp only [Bool.not_false, if_pos] at hdisp
                  cases hdisp
                  exact hl
              | true =>
                  simp only [Bool.not_true] at hdisp
                  rw [if_neg (by simp)] at hdisp
                  rw [if_neg (by simp [hl])] at hdisp
                  exact ih.1 t true s s2 l hl hdisp
          | unionOp a b d =>
              cases top with
              | false => cases hdisp; exact hl
              | true => simp at hdisp
          | aggregation t b m h p k =>
              cases top with
              | false => cases hdisp; exact hl
              | true =>
                  simp only [if_pos] at hdisp
                  refine ih.1 t false _ s2 l ?_ hdisp
                  simpa using hl
          | selection t sels preds keys =>
              cases top with
              | false => cases hdisp; exact hl
              | true =>
                  simp only [if_pos] at hdisp
                  rcases exceptMap_ok hdisp with ⟨pr, hpr, hs2⟩
                  subst hs2
                  by_cases hj : isJoin t = true
                  · rw [if_pos hj] at hpr
                    exact ih.2 t false s pr l hl hpr
                  · rw [if_neg hj] at hpr
                    rcases exceptMap_ok hpr with ⟨sv, hsv, hpr2⟩
                    subst hpr2
                    exact ih.1 t false s sv l hl hsv
          | materializedJoin j =>
              rcases exceptMap_ok hdisp with ⟨pr, hpr, hs2⟩
              subst hs2
              refine ih.2 j false _ pr l ?_ hpr
              cases top <;> simpa using hl
          | join jt jl jr jp =>
              rcases exceptMap_ok hdisp with ⟨pr, hpr, hs2⟩
              subst hs2
              exact ih.2 (join jt jl jr jp) top s pr l hl hpr
          | intersectionOp a b => simp at hdisp
          | differenceOp a b => simp at hdisp
          | tableColumn a b c => simp at hdisp
          | literal v => simp at hdisp
          | equalsOp a b => simp at hdisp
          | andOp a b => simp at hdisp
          | anyOp a => simp at hdisp
          | notAnyOp a => simp at hdisp
          | existsSubquery a b => simp at hdisp
          | notExistsSubquery a b => simp at hdisp
          | tableArrayView a => simp at hdisp
          | topK a b c => simp at hdisp
          | summaryFilter a => simp at hdisp
      · intro e top s r l hl hok
        simp only [collectJoinF] at hok
        by_cases hc : allDistinctRoots (getSubtables e) = true
        · rw [if_pos hc] at hok
          rcases exceptMap_ok hok with ⟨sv, hsv, hr⟩
          subst hr
          refine foldlM_preserves (fun t => t.limit = Option.some l) _ _
            (fun a _ t t' ht hft => ih.1 a false t t' l ht hft) _ sv ?_ hsv
          cases top <;> simpa using hl
        · rw [if_neg hc] at hok
          cases hok
          cases top <;> simpa using hl

/-! ### The remaining build steps and `SelectBuilder.get_result`. -/

/-- `SelectBuilder._visit_select_expr` (fueled): a value op recurses into
its expression arguments and rebuilds only when a child changed (the only
named handler, `_visit_select_Histogram`, has no corresponding node kind
here); any non-value node is returned unchanged. -/
def visitSelectExprF : Nat → E → E
  | 0, e => e
  | fuel + 1, e =>
      match e with
      | tableColumn nm t b =>
          let t' := visitSelectExprF fuel t
          if t' = t then e else tableColumn nm t' b
      | equalsOp l r =>
          let l' := visitSelectExprF fuel l
          let r' := visitSelectExprF fuel r
          if l' = l ∧ r' = r then e else equalsOp l' r'
      | andOp l r =>
          let l' := visitSelectExprF fuel l
          let r' := visitSelectExprF fuel r
          if l' = l ∧ r' = r then e else andOp l' r'
      | anyOp a =>
          let a' := visitSelectExprF fuel a
          if a' = a then e else anyOp a'
      | notAnyOp a =>
          let a' := visitSelectExprF fuel a
          if a' = a then e else notAnyOp a'
      | topK a k m =>
          let a' := visitSelectExprF fuel a
          let m' := visitSelectExprF fuel m
          if a' = a ∧ m' = m then e else topK a' k m'
      | tableArrayView t =>
          let t' := visitSelectExprF fuel t
          if t' = t then e else tableArrayView t'
      | summaryFilter t =>
          let t' := visitSelectExprF fuel t
          if t' = t then e else summaryFilter t'
      | _ => e

/-- `SelectBuilder._analyze_select_exprs`. -/
def analyzeSelectExprsF (fuel : Nat) (s : SB) : SB :=
  { s with selectSet := s.selectSet.map (visitSelectExprF fuel) }

/-- All table-typed sub-expression occurrences of a node (fueled),
depth-first, occurrences kept with multiplicity. -/
def allTableNodesF : Nat → E → List E
  | 0, _ => []
  | fuel + 1, e =>
      (if isTableExpr e then [e] else []) ++
        (flatArgs e).foldl (fun acc a => acc ++ allTableNodesF fuel a) []

/-- `ExtractSubqueries.extract` (`extract_subqueries.py`, not under src).
Modelled from the spec: find every distinct sub-expression reachable in
the resolved plan that occurs more than once structurally. -/
def extractSubqueries (s : SB) : List E :=
  match s.tableSet with
  | Option.none => []
  | Option.some ts =>
      let occ := allTableNodesF (esize ts) ts
      (occ.foldl
          (fun acc e => if acc.contains e then acc else acc ++ [e])
          []).filter
        (fun e => 2 ≤ occ.count e)

/-- `SelectBuilder._analyze_subqueries`: run the dedup loop over the
found candidates, updating the statement's WITH list and the context. -/
def analyzeSubqueriesStep (s : SB) : SB :=
  let found := extractSubqueries s
  let r := analyzeSubqueriesLoop s.context found
  { s with context := r.1, subqueries := r.2 }

/-- `SelectBuilder._foreign_ref_check` as invoked from
`_populate_context`: the correlated-root check's boolean together with
the alias-side-effected context (`crGetResult` is its boolean part). -/
def foreignRefCheck (tableSet : E) (ctx : Ctx) (expr : E) : Bool × Ctx :=
  let roots := rootTables tableSet
  let st :=
    (crVisitF (esize expr) roots expr false ⟨[], false, false, ctx, []⟩
      Option.none).1
  (st.hasQueryRoot && st.hasForeignRoot, st.ctx)

/-- `SelectBuilder._make_table_aliases` (fueled): recurse through joins;
an un-extracted relation gets a fresh alias, an extracted one inherits
its top-context reference. -/
def makeTableAliasesF : Nat → E → Ctx → Ctx
  | 0, _, ctx => ctx
  | fuel + 1, e, ctx =>
      match e with
      | join _ l r _ => makeTableAliasesF fuel r (makeTableAliasesF fuel l ctx)
      | _ =>
          if !(ctx.isExtracted e) then ctx.makeAlias e
          else ctx.setRef e (ctx.topContext.getRefD e)

/-- `SelectBuilder._populate_context`: alias the table set's relations,
then run the correlated-root check over every filter, forcing
always-alias when any is correlated.  (With filters present but no table
set the source's checker would fail dereferencing `table_set`; embedded
as an error.) -/
def populateContextStep (s : SB) : Except BErr SB :=
  match s.tableSet with
  | Option.some ts =>
      let ctx := makeTableAliasesF (esize ts) ts s.context
      Except.ok
        { s with
            context :=
              s.filters.foldl
                (fun ctx expr =>
                  let r := foreignRefCheck ts ctx expr
                  if r.1 then r.2.setAlwaysAlias else r.2)
                ctx }
  | Option.none =>
      if s.filters.isEmpty then Except.ok s
      else Except.error BErr.internalNoTableSet

/-- `SelectBuilder._build_result_query`: collect, analyze select and
filter expressions, extract subqueries, populate aliases, then assemble
the `Select` statement from the builder's fields. -/
def buildResultQueryF (fuel : Nat) (queryExpr : E) (s : SB) :
    Except BErr (SelectStmt × SB) := do
  let s ← collectElementsF fuel queryExpr s
  let s := analyzeSelectExprsF fuel s
  let s ← analyzeFilterExprsF fuel s
  let s := analyzeSubqueriesStep s
  let s ← populateContextStep s
  Except.ok
    (⟨s.tableSet, s.selectSet, s.subqueries, s.filters, s.groupBy, s.having,
      s.limit, s.sortBy, s.distinct⟩, s)

/-- `SelectBuilder.get_result`: when `self.queries` is non-empty the
source executes `return self._wrap_result()` (behind the comment "make
idempotent"), but no `_wrap_result` method is defined on `SelectBuilder`
— which has no base class — anywhere in the source, so the call raises
`AttributeError`; otherwise the result query is built, appended to
`self.queries`, and returned. -/
def selectBuilderGetResult (fuel : Nat) (queryExpr : E) (s : SB) :
    Except BErr (SelectStmt × SB) :=
  match s.queries with
  | _ :: _ => Except.error BErr.attributeErrorNoWrapResult
  | [] =>
      match buildResultQueryF fuel queryExpr s with
      | Except.error m => Except.error m
      | Except.ok (q, s') =>
          Except.ok (q, { s' with queries := s'.queries ++ [q] })

/-- C10: (i) a `Limit` node collected when not at top level contributes
nothing — the only state change is its own op-memo entry, and collection
does not recurse into its table; (ii) once a limit is recorded, any
further collection — in particular of further `Limit` nodes — leaves the
recorded limit unchanged; (iii) hence collecting a top-level `Limit` with
no limit recorded yet records that outermost node's count and offset, no
matter what (further limits included) its wrapped table holds; (iv) on
the concrete nested chain `Limit(5,2)(Limit(3,1)(t))` the built Select
statement records `(5, 2)`. -/
theorem c10_outermost_limit_wins :
    (∀ (fuel : Nat) (t : E) (n o : Nat) (s : SB),
      memE (limitOp t n o) s.opMemo = false →
      collectF (fuel + 1) (limitOp t n o) false s =
        Except.ok { s with opMemo := s.opMemo ++ [limitOp t n o] }) ∧
    (∀ (fuel : Nat) (e : E) (toplevel : Bool) (s s' : SB) (l : Nat × Nat),
      s.limit = Option.some l → collectF fuel e toplevel s = Except.ok s' →
        s'.limit = Option.some l) ∧
    (∀ (fuel : Nat) (t : E) (n o : Nat) (s s' : SB),
      s.limit = Option.none →
      memE (limitOp t n o) s.opMemo = false →
      collectF (fuel + 1) (limitOp t n o) true s = Except.ok s' →
        s'.limit = Option.some (n, o)) ∧
    (∃ q s',
      selectBuilderGetResult 9
          (limitOp (limitOp (physicalTable "t") 3 1) 5 2)
          (initSB freshCtx) = Except.ok (q, s') ∧
      q.limit = Option.some (5, 2)) := by
  refine ⟨?_, fun fuel => (collect_limit_preserved fuel).1, ?_, ⟨_, _, rfl, rfl⟩⟩
  · intro fuel t n o s hm
    simp [collectF, hm, memoAdd, Except.map]
  · intro fuel t n o s s' hl hm hok
    simp only [collectF] at hok
    rw [if_neg (by simp [hm])] at hok
    rcases exceptMap_ok hok with ⟨s2, hdisp, hs'⟩
    subst hs'
    have hlim : (memoAdd (limitOp t n o) s2).limit = s2.limit := rfl
    rw [hlim]
    simp only [Bool.not_true] at hdisp
    rw [if_neg (by simp)] at hdisp
    rw [if_pos hl] at hdisp
    exact (collect_limit_preserved fuel).1 t true _ s2 (n, o)
      (by simp) hdisp

/-- Witness for C10: a non-top-level `Limit` over table `t` only adds its
memo entry, and collecting the nested chain `Limit(5,2)(Limit(3,1)(t))`
at top level records `(5, 2)`, the outermost pair. -/
theorem c10_outermost_limit_wins_witness :
    collectF 1 (limitOp (physicalTable "t") 5 2) false (initSB freshCtx) =
      Except.ok
        { initSB freshCtx with
            opMemo := [limitOp (physicalTable "t") 5 2] } ∧
    (∃ s', collectF 3 (limitOp (limitOp (physicalTable "t") 3 1) 5 2) true
        (initSB freshCtx) = Except.ok s' ∧
        s'.limit = Option.some (5, 2)) :=
  ⟨c10_outermost_limit_wins.1 0 (physicalTable "t") 5 2 (initSB freshCtx)
      rfl,
   ⟨_, rfl,
    c10_outermost_limit_wins.2.2.1 2 (limitOp (physicalTable "t") 3 1) 5 2
      (initSB freshCtx) _ rfl rfl rfl⟩⟩

/-- C6 (code bug): whenever a first `get_result` succeeds (caching the
built statement in `self.queries`), any second invocation on the same
builder hits `return self._wrap_result()` — a method that exists nowhere
on `SelectBuilder` — and raises `AttributeError` instead of returning the
cached statement; concretely so on the plain table expression `t`. -/
theorem c6_get_result_not_idempotent :
    (∀ (fuel fuel2 : Nat) (e e2 : E) (s : SB) (q : SelectStmt) (s' : SB),
      selectBuilderGetResult fuel e s = Except.ok (q, s') →
      selectBuilderGetResult fuel2 e2 s' =
        Except.error BErr.attributeErrorNoWrapResult) ∧
    (∃ q s',
      selectBuilderGetResult 2 (physicalTable "t") (initSB freshCtx) =
        Except.ok (q, s') ∧
      selectBuilderGetResult 2 (physicalTable "t") s' =
        Except.error BErr.attributeErrorNoWrapResult) := by
  constructor
  · intro fuel fuel2 e e2 s q s' h
    unfold selectBuilderGetResult at h ⊢
    cases hq : s.queries with
    | cons x xs => rw [hq] at h; simp at h
    | nil =>
        rw [hq] at h
        cases hb : buildResultQueryF fuel e s with
        | error m => rw [hb] at h; simp at h
        | ok pr =>
            rw [hb] at h
            obtain ⟨q0, s0⟩ := pr
            simp only [Except.ok.injEq, Prod.mk.injEq] at h
            obtain ⟨_, hs'⟩ := h
            rw [← hs']
            cases s0.queries <;> simp
  · exact ⟨_, _, rfl, rfl⟩

/-- Witness for C6's general conjunct, discharging its hypothesis with
the successful first call on the plain table `t`. -/
theorem c6_get_result_not_idempotent_witness :
    selectBuilderGetResult 2 (physicalTable "t")
        ((selectBuilderGetResult 2 (physicalTable "t")
          (initSB freshCtx)).toOption.get rfl).2 =
      Except.error BErr.attributeErrorNoWrapResult :=
  c6_get_result_not_idempotent.1 2 2 (physicalTable "t") (physicalTable "t")
    (initSB freshCtx) _ _ rfl

end IbisQB
